import Mathlib

/-!
Verification of the event-sourced winemaking repository.

This file gives a shallow embedding of the repository's core data model and
algorithms and proves (or refutes) the frozen claims about them:

* timestamps (`DT`) model timezone-aware datetimes as whole seconds since the
  Unix epoch plus a microsecond part (the stores truncate to second
  resolution, so the microsecond part only matters for truncation claims);
* Python `Decimal` values are modelled as exact rationals (`ℚ`); every claim
  settled here compares expressions built from the same embedded arithmetic
  on both sides, so the 28-digit context rounding of `Decimal` is immaterial
  to the statements proved;
* Python dicts are modelled as association lists with insert-or-replace
  update, which matches dict insertion-order semantics up to key lookup;
* the one source of non-determinism, `uuid.uuid4()` inside
  `WineLot.apply_wine_lot_deleted`, is modelled as an explicit oracle
  argument supplying the random hex string drawn when a given event is
  applied.
-/

-- Equality of `Except` results is decidable, so concrete runs of the
-- embedded functions can be checked by evaluation.
deriving instance DecidableEq for Except

/-- Timezone-aware datetime: whole seconds since the Unix epoch plus a
microsecond component.  `1970-01-01T00:00:00+00:00` is `⟨0, 0⟩`. -/
structure DT where
  sec : Int
  micro : Nat
deriving DecidableEq, Repr

/-- Strict chronological comparison of two datetimes (lexicographic on the
second and microsecond parts), as used by SQL `occurred_at <` filters. -/
def DT.ltb (a b : DT) : Bool :=
  decide (a.sec < b.sec) || (decide (a.sec = b.sec) && decide (a.micro < b.micro))

/-- Non-strict chronological comparison of two datetimes, as used by SQL
`occurred_at <=` filters. -/
def DT.leb (a b : DT) : Bool :=
  DT.ltb a b || decide (a = b)

/-- The Unix epoch `1970-01-01T00:00:00+00:00`, the timestamp that
`WineLot.create` hard-codes onto every `WineLotCreated` event. -/
def epochDT : DT := ⟨0, 0⟩

/-- Truncation of sub-second precision, modelling
`effective_at.replace(microsecond=0)` in `calculate_composition`. -/
def DT.truncate (a : DT) : DT := ⟨a.sec, 0⟩

/-- A component of a wine lot composition: `(variety, appellation, vintage)`,
from `winemaking/types.py` (`LotComponent`). -/
structure LotComponent where
  variety : String
  appellation : String
  vintage : Int
deriving DecidableEq, Repr

/-- Python dict from `LotComponent` to `Decimal`, as an association list. -/
abbrev CompDict := List (LotComponent × ℚ)

/-- Dict lookup with default `0`, modelling `d.get(comp, Decimal("0"))`. -/
def dictGet (d : CompDict) (c : LotComponent) : ℚ :=
  match d.find? (fun p => p.1 = c) with
  | some p => p.2
  | none => 0

/-- Dict write `d[c] = q`: replace the value at an existing key in place,
else append the new key, matching Python dict update semantics. -/
def dictSet (d : CompDict) (c : LotComponent) (q : ℚ) : CompDict :=
  match d with
  | [] => [(c, q)]
  | p :: rest => if p.1 = c then (c, q) :: rest else p :: dictSet rest c q

/-- Sum of all values of the dict, modelling
`sum(percent for percent in obj.components.values())`. -/
def dictSum (d : CompDict) : ℚ :=
  (d.map Prod.snd).sum

/-- Keys of the dict are pairwise distinct (inherent to a Python dict). -/
def dictNodupKeys (d : CompDict) : Prop :=
  (d.map Prod.fst).Nodup

/-- Composition of a wine lot (`winemaking/types.py`, class `Composition`):
a mapping from `LotComponent` to a fractional decimal.  Named
`LotComposition` here because Mathlib already declares `Composition`. -/
structure LotComposition where
  components : CompDict
deriving DecidableEq, Repr

/-- Construction of a `Composition` value, including the pydantic
`validate_percentages` model validator: the sum of the fractions must lie
strictly between `0.9999` and `1.0001`, otherwise construction raises
`ValueError`. -/
def mkComposition (d : CompDict) : Except String LotComposition :=
  if (0.9999 : ℚ) < dictSum d ∧ dictSum d < (1.0001 : ℚ) then
    Except.ok ⟨d⟩
  else
    Except.error "Total percentage must be 100"

/-- Events of the `WineLot` aggregate (`winemaking/events/wine_lot.py`).
Timestamped kinds carry `occurred_at`; action-sequenced kinds carry
`action_id`. -/
inductive WineLotEvent where
  | created (aggregateId : String) (code : String)
      (components : List (LotComponent × ℚ)) (occurredAt : DT)
  | updated (aggregateId : String) (codeBefore codeAfter : String)
  | deleted (aggregateId : String) (occurredAt : DT)
  | volumeBlended (aggregateId : String) (actionId : String) (occurredAt : DT)
      (volumes : List (String × ℚ)) (volumeReceived : ℚ)
  | volumeReceived (aggregateId : String) (actionId : String) (occurredAt : DT)
      (volume : ℚ)
  | volumeRemeasured (aggregateId : String) (actionId : String) (occurredAt : DT)
      (volume : ℚ)
  | volumeBottled (aggregateId : String) (actionId : String) (occurredAt : DT)
      (volume : ℚ)
  | volumeMoved (aggregateId : String) (actionId : String) (occurredAt : DT)
      (volume : ℚ) (toWineLotId : String)
deriving DecidableEq, Repr

/-- In-memory state of a `WineLot` aggregate row (`winemaking/models/wine_lot.py`)
together with the transient flags used by the eventsourcing machinery
(`_state.adding`, `__is_before_creation__`, `_persistable`). -/
structure WineLotState where
  id : String
  version : Nat
  code : String
  volume : ℚ
  deletedAt : Option DT
  adding : Bool
  backdating : Bool
  persistable : Bool
deriving DecidableEq, Repr

/-- A fresh `WineLot()` Django instance: field defaults (`volume` defaults to
`0.00`, `deleted_at` to `NULL`, `code` unset) with `_state.adding = True`. -/
def WineLotState.blank : WineLotState :=
  { id := "", version := 0, code := "", volume := 0, deletedAt := none,
    adding := true, backdating := false, persistable := true }

/-- Model of `AggregateModel.identity()`: a blank instance carrying only the
`pk` and `version` of the given aggregate, with `_state.adding = False`. -/
def WineLotState.identity (st : WineLotState) : WineLotState :=
  { WineLotState.blank with id := st.id, version := st.version, adding := false }

/-- Model of `mark_for_backdating` on an aggregate. -/
def WineLotState.markForBackdating (st : WineLotState) : WineLotState :=
  { st with backdating := true }

/-- Dispatch of `apply_<kind>` handlers of `WineLot`
(`winemaking/models/wine_lot.py`, lines 185-211).  The `draw` argument is the
hex string produced by the `uuid.uuid4()` call inside
`apply_wine_lot_deleted`, made explicit because that call is the one
non-deterministic input of the handler. -/
def WineLotState.applyEvent (draw : String) (st : WineLotState) (ev : WineLotEvent) :
    WineLotState :=
  match ev with
  | .created aggId code _ _ => { st with id := aggId, code := code }
  | .updated _ _ codeAfter => { st with code := codeAfter }
  | .deleted _ occurredAt =>
      { st with code := st.code ++ "!" ++ draw, deletedAt := some occurredAt }
  | .volumeBlended _ _ _ _ volumeReceived => { st with volume := st.volume + volumeReceived }
  | .volumeReceived _ _ _ volume => { st with volume := st.volume + volume }
  | .volumeRemeasured _ _ _ volume => { st with volume := volume }
  | .volumeBottled _ _ _ volume => { st with volume := st.volume - volume }
  | .volumeMoved _ _ _ volume _ => { st with volume := st.volume - volume }

/-- Dispatch of the `validate_<kind>_context` handlers of `WineLot`: only
`validate_volume_moved_context` and `validate_volume_bottled_context` exist,
both raising `ValueError` when the volume would go negative.  Event kinds
without a validator are a no-op. -/
def WineLotState.validateEventContext (st : WineLotState) (ev : WineLotEvent) :
    Except String Unit :=
  match ev with
  | .volumeMoved _ _ _ volume _ =>
      if st.volume - volume < 0 then
        Except.error "Moved volume cannot exceed current volume."
      else
        Except.ok ()
  | .volumeBottled _ _ _ volume =>
      if st.volume - volume < 0 then
        Except.error "Bottled volume cannot exceed current volume."
      else
        Except.ok ()
  | _ => Except.ok ()

/-- Model of `AggregateModel.load` for `WineLot`: validate the event context,
then apply the event to in-memory state, without touching the recorded-events
buffer or the repository.  `oracle` supplies the `uuid.uuid4()` draw consumed
when the given event is a `WineLotDeleted`. -/
def WineLotState.load (oracle : WineLotEvent → String) (st : WineLotState)
    (ev : WineLotEvent) : Except String WineLotState :=
  match st.validateEventContext ev with
  | Except.error e => Except.error e
  | Except.ok () => Except.ok (st.applyEvent (oracle ev) ev)

/-- Model of the per-aggregate loop of `rebuild_aggregates`
(`eventsourcing/aggregates.py`, lines 228-238): seed `identity()` and fold the
complete event history via `load`. -/
def rebuildWineLot (oracle : WineLotEvent → String) (seed : WineLotState)
    (history : List WineLotEvent) : Except String WineLotState :=
  history.foldlM (WineLotState.load oracle) seed.identity

/-- Lexicographic comparison of character lists, the order SQL uses on the
(fixed-length, uppercase-alphanumeric) ULID strings stored in
`sequence_number` columns.  Written as an executable Bool so that concrete
comparisons evaluate. -/
def charListLtb : List Char → List Char → Bool
  | [], [] => false
  | [], _ :: _ => true
  | _ :: _, [] => false
  | c :: cs, d :: ds =>
    if c < d then true else if c = d then charListLtb cs ds else false

/-- Strict lexicographic string comparison. -/
def strLtb (a b : String) : Bool :=
  charListLtb a.toList b.toList

/-- Non-strict lexicographic string comparison. -/
def strLeb (a b : String) : Bool :=
  strLtb a b || decide (a = b)

/-- The executable comparison agrees with the `List Char` order. -/
theorem charListLtb_iff (cs ds : List Char) : charListLtb cs ds = true ↔ cs < ds := by
  induction cs generalizing ds with
  | nil =>
    cases ds with
    | nil =>
      simp only [charListLtb, Bool.false_eq_true, false_iff]
      exact fun h => nomatch h
    | cons d ds =>
      simp only [charListLtb, true_iff]
      exact List.Lex.nil
  | cons c cs ih =>
    cases ds with
    | nil =>
      simp only [charListLtb, Bool.false_eq_true, false_iff]
      exact fun h => nomatch h
    | cons d ds =>
      simp only [charListLtb]
      by_cases h1 : c < d
      · simp only [h1, if_true, true_iff]
        exact List.Lex.rel h1
      · by_cases h2 : c = d
        · subst h2
          rw [if_neg h1, if_pos rfl, ih]
          constructor
          · intro h
            exact List.Lex.cons h
          · intro h
            cases h with
            | cons htl => exact htl
            | rel hlt => exact absurd hlt h1
        · rw [if_neg h1, if_neg h2]
          simp only [Bool.false_eq_true, false_iff]
          intro h
          cases h with
          | cons htl => exact h2 rfl
          | rel hlt => exact h1 hlt

/-- The executable comparison agrees with the `String` order. -/
theorem strLtb_iff (a b : String) : strLtb a b = true ↔ a < b := by
  rw [String.lt_iff_toList_lt]
  exact charListLtb_iff a.toList b.toList

/-- The executable non-strict comparison agrees with the `String` order. -/
theorem strLeb_iff (a b : String) : strLeb a b = true ↔ a ≤ b := by
  simp only [strLeb, Bool.or_eq_true, decide_eq_true_eq, strLtb_iff]
  exact (le_iff_lt_or_eq).symm

/-- A persisted event-store row (`eventsourcing/models.py`,
`AggregateEventModel`): surrogate `id`, `aggregate_id`, `occurred_at`,
nullable `sequence_number`, and the decoded event payload. -/
structure EventRow where
  id : Nat
  aggregateId : String
  occurredAt : DT
  sequenceNumber : Option String
  data : WineLotEvent
deriving DecidableEq, Repr

/-- SQL semantics of `sequence_number <= action_id`: a `NULL` sequence number
never satisfies the comparison. -/
def seqLeb (seq : Option String) (actionId : String) : Bool :=
  match seq with
  | none => false
  | some q => strLeb q actionId

/-- SQL `sequence_number ASC NULLS FIRST` comparison used as the canonical
tie-breaker between event rows. -/
def seqNullsFirstLtb (a b : Option String) : Bool :=
  match a, b with
  | none, none => false
  | none, some _ => true
  | some _, none => false
  | some p, some q => strLtb p q

/-- Canonical event order `(occurred_at ASC, sequence_number ASC NULLS FIRST,
id ASC)` from `AggregateEventOrderingMixin` in `eventsourcing/models.py`. -/
def canonicalLtb (r s : EventRow) : Bool :=
  DT.ltb r.occurredAt s.occurredAt ||
    (decide (r.occurredAt = s.occurredAt) &&
      (seqNullsFirstLtb r.sequenceNumber s.sequenceNumber ||
        (decide (r.sequenceNumber = s.sequenceNumber) && decide (r.id < s.id))))

/-- Temporal cutoff used by the composition projection when both
`effective_at` and `action_id` are given
(`winemaking/use_cases/calculate_composition.py`, lines 73-75):
`occurred_at < effective_at OR (occurred_at = effective_at AND
sequence_number <= action_id)`. -/
def compositionCutoffAtPoint (effectiveAt : DT) (actionId : String) (row : EventRow) : Bool :=
  DT.ltb row.occurredAt effectiveAt ||
    (decide (row.occurredAt = effectiveAt) && seqLeb row.sequenceNumber actionId)

/-- Temporal cutoff used by the composition projection when only
`effective_at` is given (`calculate_composition.py`, line 78):
`occurred_at <= effective_at`. -/
def compositionCutoffAtTime (effectiveAt : DT) (row : EventRow) : Bool :=
  DT.leb row.occurredAt effectiveAt

/-- Fold window of `load_editable_aggregates_at_time_and_point`
(`eventsourcing/aggregates.py`, lines 58-60): `occurred_at < t OR
(occurred_at = t AND sequence_number <= s)`. -/
def editWindowAtPoint (occurredAt : DT) (sequenceNumber : String) (row : EventRow) : Bool :=
  DT.ltb row.occurredAt occurredAt ||
    (decide (row.occurredAt = occurredAt) && seqLeb row.sequenceNumber sequenceNumber)

/-- Fold window of `load_editable_aggregates_at_time`
(`eventsourcing/aggregates.py`, lines 111-113): `occurred_at <= t`. -/
def editWindowAtTime (occurredAt : DT) (row : EventRow) : Bool :=
  DT.leb row.occurredAt occurredAt

/-- The `occurred_at` attribute of an event payload: present exactly on the
`Timestamped` event kinds (every `WineLot` event except `WineLotUpdated`). -/
def WineLotEvent.occurredAt? : WineLotEvent → Option DT
  | .created _ _ _ t => some t
  | .updated _ _ _ => none
  | .deleted _ t => some t
  | .volumeBlended _ _ t _ _ => some t
  | .volumeReceived _ _ t _ => some t
  | .volumeRemeasured _ _ t _ => some t
  | .volumeBottled _ _ t _ => some t
  | .volumeMoved _ _ t _ _ => some t

/-- The `sequence_number` attribute of an event payload, which is the
`action_id` on `ActionSequenced` kinds and absent otherwise. -/
def WineLotEvent.sequenceNumber? : WineLotEvent → Option String
  | .created _ _ _ _ => none
  | .updated _ _ _ => none
  | .deleted _ _ => none
  | .volumeBlended _ a _ _ _ => some a
  | .volumeReceived _ a _ _ => some a
  | .volumeRemeasured _ a _ _ => some a
  | .volumeBottled _ a _ _ => some a
  | .volumeMoved _ a _ _ _ => some a

/-- The `aggregate_id` carried by an event payload. -/
def WineLotEvent.aggregateId : WineLotEvent → String
  | .created a _ _ _ => a
  | .updated a _ _ => a
  | .deleted a _ => a
  | .volumeBlended a _ _ _ _ => a
  | .volumeReceived a _ _ _ => a
  | .volumeRemeasured a _ _ _ => a
  | .volumeBottled a _ _ _ => a
  | .volumeMoved a _ _ _ _ => a

/-- Model of `EventStoreManagerMixin.store` building one row from one event:
`occurred_at` is `getattr(event, "occurred_at", timezone.now())` and
`sequence_number` is `getattr(event, "sequence_number", None)`.  `rowId` is
the auto-generated surrogate key and `now` the write-time clock value. -/
def storeRow (rowId : Nat) (now : DT) (ev : WineLotEvent) : EventRow :=
  { id := rowId, aggregateId := ev.aggregateId,
    occurredAt := (ev.occurredAt?).getD now,
    sequenceNumber := ev.sequenceNumber?, data := ev }

/-- Membership of a character in the `[A-Z0-9]` class of `_CODE_REGEX`. -/
def isUpperAlnum (c : Char) : Bool :=
  c.isUpper || c.isDigit

/-- Membership of a character in the `[A-Z0-9_-]` class of `_CODE_REGEX`. -/
def isCodeInnerChar (c : Char) : Bool :=
  isUpperAlnum c || decide (c = '_') || decide (c = '-')

/-- Model of `WineLot._validate_code`: the code must be a non-empty string of
2 to 50 characters matching `^[A-Z0-9][A-Z0-9_-]{0,48}[A-Z0-9]$`. -/
def validateCode (code : String) : Except String Unit :=
  if code.isEmpty then
    Except.error "Code must be a non-empty string."
  else if code.length < 2 ∨ 50 < code.length then
    Except.error "Code must be between 2 and 50 characters long."
  else if ¬ (isUpperAlnum (code.toList.head!) = true ∧
      isUpperAlnum (code.toList.getLast!) = true ∧
      ∀ c ∈ code.toList.drop 1, isCodeInnerChar c = true) then
    Except.error "Code must consist of uppercase alphanumeric characters, hyphens, or underscores."
  else
    Except.ok ()

/-- Model of `WineLot.create` (`winemaking/models/wine_lot.py`, lines 58-75):
validate the code, emit a `WineLotCreated` event whose `occurred_at` is
hard-coded to `1970-01-01T00:00:00` ("force our creation event to the front
of any stream"), and apply it onto a fresh instance.  `newId` stands for the
generated ULID.  Returns the created aggregate state together with the
emitted event. -/
def WineLot.create (newId : String) (code : String) (composition : LotComposition) :
    Except String (WineLotState × WineLotEvent) :=
  match validateCode code with
  | Except.error e => Except.error e
  | Except.ok () =>
    let ev : WineLotEvent := .created newId code composition.components epochDT
    match WineLotState.load (fun _ => "") WineLotState.blank ev with
    | Except.error e => Except.error e
    | Except.ok st => Except.ok (st, ev)

/-- C1: folding the full event history of a `WineLot` whose history contains a
`WineLotDeleted` event does NOT reproduce the originally applied `code`:
`apply_wine_lot_deleted` appends `"!"` plus a fresh `uuid.uuid4().hex` draw,
so two replays of the same history (here with draws `"1a2b"` and `"3c4d"`)
yield different `code` values.  Replay equivalence fails on the `code`
field. -/
theorem rebuild_wineLotDeleted_code_depends_on_draw :
    (rebuildWineLot (fun _ => "1a2b")
        { WineLotState.blank with id := "01LOT", version := 3, adding := false }
        [WineLotEvent.created "01LOT" "AB" [] epochDT,
         WineLotEvent.deleted "01LOT" ⟨100, 0⟩]).map WineLotState.code
      = Except.ok "AB!1a2b"
    ∧ (rebuildWineLot (fun _ => "3c4d")
        { WineLotState.blank with id := "01LOT", version := 3, adding := false }
        [WineLotEvent.created "01LOT" "AB" [] epochDT,
         WineLotEvent.deleted "01LOT" ⟨100, 0⟩]).map WineLotState.code
      = Except.ok "AB!3c4d"
    ∧ "AB!1a2b" ≠ "AB!3c4d" := by
  refine ⟨rfl, rfl, by decide⟩

/-- C5: the temporal cutoff predicate of the composition projection
(`_build_lot_compositions`) is the same predicate as the fold window of the
write-side edit replay (`load_editable_aggregates_at_time_and_point` /
`load_editable_aggregates_at_time`), and each selects exactly the rows the
claim describes: time-only selects `occurred_at <= effective_at`, and
time-plus-action selects `occurred_at < effective_at` or (`occurred_at =
effective_at` and `sequence_number <= action_id`, the sequence number being
non-NULL). -/
theorem cutoff_predicates_agree (t : DT) (a : String) (row : EventRow) :
    compositionCutoffAtTime t row = editWindowAtTime t row
    ∧ compositionCutoffAtPoint t a row = editWindowAtPoint t a row
    ∧ (compositionCutoffAtTime t row = true ↔ DT.leb row.occurredAt t = true)
    ∧ (compositionCutoffAtPoint t a row = true ↔
        (DT.ltb row.occurredAt t = true ∨
          (row.occurredAt = t ∧ ∃ q, row.sequenceNumber = some q ∧ q ≤ a))) := by
  refine ⟨rfl, rfl, Iff.rfl, ?_⟩
  cases h : row.sequenceNumber with
  | none => simp [compositionCutoffAtPoint, seqLeb, h]
  | some q => simp [compositionCutoffAtPoint, seqLeb, h, strLeb_iff]

/-- C10 counterexample: the creation event emitted by `WineLot.create` does
carry `occurred_at = 1970-01-01T00:00:00`, but it is NOT included in every
temporal cutoff window and does NOT precede every other event in canonical
order: a composition-projection window with `effective_at =
1969-12-31T23:59:59` excludes it, and a `VolumeReceived` event backdated to
ten seconds before the epoch precedes it canonically. -/
theorem creation_event_not_in_every_window :
    ∃ st ev, WineLot.create "01LOT" "AB" ⟨[(⟨"PN", "WV", 2022⟩, 1)]⟩
        = Except.ok (st, ev)
    ∧ ev.occurredAt? = some epochDT
    ∧ compositionCutoffAtTime ⟨-1, 0⟩ (storeRow 7 ⟨200, 0⟩ ev) = false
    ∧ canonicalLtb
        { id := 3, aggregateId := "01LOT", occurredAt := ⟨-10, 0⟩,
          sequenceNumber := some "01ACT",
          data := WineLotEvent.volumeReceived "01LOT" "01ACT" ⟨-10, 0⟩ 5 }
        (storeRow 7 ⟨200, 0⟩ ev) = true := by
  exact ⟨_, _, rfl, rfl, rfl, rfl⟩

/-- C10 (amended): every `WineLotCreated` event emitted by `WineLot.create`
carries `occurred_at` fixed to `1970-01-01T00:00:00` and a NULL sequence
number; hence its stored row precedes, in canonical order, every event row
whose `occurred_at` is strictly after the epoch, and it is selected by every
time-only cutoff window whose `effective_at` is at or after the epoch and by
every `(effective_at, action_id)` window whose `effective_at` is strictly
after the epoch — in both the replay and the composition-projection form of
those windows. -/
theorem create_occurredAt_epoch (newId code : String) (comp : LotComposition)
    (st : WineLotState) (ev : WineLotEvent)
    (h : WineLot.create newId code comp = Except.ok (st, ev)) :
    ev.occurredAt? = some epochDT
    ∧ (∀ rowId now, (storeRow rowId now ev).occurredAt = epochDT
        ∧ (storeRow rowId now ev).sequenceNumber = none)
    ∧ (∀ rowId now r, DT.ltb epochDT r.occurredAt = true →
        canonicalLtb (storeRow rowId now ev) r = true)
    ∧ (∀ rowId now t, DT.leb epochDT t = true →
        compositionCutoffAtTime t (storeRow rowId now ev) = true
        ∧ editWindowAtTime t (storeRow rowId now ev) = true)
    ∧ (∀ rowId now t a, DT.ltb epochDT t = true →
        compositionCutoffAtPoint t a (storeRow rowId now ev) = true
        ∧ editWindowAtPoint t a (storeRow rowId now ev) = true) := by
  have hev : ev = WineLotEvent.created newId code comp.components epochDT := by
    unfold WineLot.create at h
    cases hv : validateCode code with
    | error e => rw [hv] at h; exact absurd h (by simp)
    | ok u =>
      rw [hv] at h
      simp only [WineLotState.load, WineLotState.validateEventContext,
        Except.ok.injEq, Prod.mk.injEq] at h
      exact h.2.symm
  subst hev
  refine ⟨rfl, fun rowId now => ⟨rfl, rfl⟩, ?_, ?_, ?_⟩
  · intro rowId now r hr
    simp only [canonicalLtb, storeRow, WineLotEvent.occurredAt?,
      WineLotEvent.sequenceNumber?, Option.getD_some]
    rw [hr]
    rfl
  · intro rowId now t ht
    constructor
    · exact ht
    · exact ht
  · intro rowId now t a ht
    constructor
    · simp only [compositionCutoffAtPoint, storeRow, WineLotEvent.occurredAt?,
        WineLotEvent.sequenceNumber?, Option.getD_some]
      rw [ht]
      rfl
    · simp only [editWindowAtPoint, storeRow, WineLotEvent.occurredAt?,
        WineLotEvent.sequenceNumber?, Option.getD_some]
      rw [ht]
      rfl

/-- C10 witness: the amended theorem applied to a concrete `WineLot.create`
call, a row after the epoch, and windows at five seconds past the epoch. -/
theorem create_occurredAt_epoch_witness :
    (WineLotEvent.created "01LOT" "AB" [(⟨"PN", "WV", 2022⟩, 1)] epochDT).occurredAt?
        = some epochDT
    ∧ canonicalLtb
        (storeRow 7 ⟨200, 0⟩ (WineLotEvent.created "01LOT" "AB" [(⟨"PN", "WV", 2022⟩, 1)] epochDT))
        { id := 3, aggregateId := "01LOT", occurredAt := ⟨60, 0⟩,
          sequenceNumber := some "01ACT",
          data := WineLotEvent.volumeReceived "01LOT" "01ACT" ⟨60, 0⟩ 5 } = true
    ∧ compositionCutoffAtTime ⟨5, 0⟩
        (storeRow 7 ⟨200, 0⟩ (WineLotEvent.created "01LOT" "AB" [(⟨"PN", "WV", 2022⟩, 1)] epochDT)) = true
    ∧ compositionCutoffAtPoint ⟨5, 0⟩ "01ACT"
        (storeRow 7 ⟨200, 0⟩ (WineLotEvent.created "01LOT" "AB" [(⟨"PN", "WV", 2022⟩, 1)] epochDT)) = true := by
  have h : WineLot.create "01LOT" "AB" ⟨[(⟨"PN", "WV", 2022⟩, 1)]⟩
      = Except.ok ({ WineLotState.blank with id := "01LOT", code := "AB" },
        WineLotEvent.created "01LOT" "AB" [(⟨"PN", "WV", 2022⟩, 1)] epochDT) := rfl
  have facts := create_occurredAt_epoch "01LOT" "AB" ⟨[(⟨"PN", "WV", 2022⟩, 1)]⟩ _ _ h
  exact ⟨facts.1, facts.2.2.1 7 ⟨200, 0⟩ _ (by decide),
    (facts.2.2.2.1 7 ⟨200, 0⟩ ⟨5, 0⟩ (by decide)).1,
    (facts.2.2.2.2 7 ⟨200, 0⟩ ⟨5, 0⟩ "01ACT" (by decide)).1⟩

/-- Buffered state of the `AggregateRepository` singleton
(`eventsourcing/aggregate_repository.py`): `_events` (all notifications, in
buffering order), `_new_aggregate_events` (a dict keyed by aggregate
instance, modelled by a string key), `_event_stores` (buffered events for the
single `WineLot` event store), and `_deleted_event_models` (rows queued for
deletion). -/
structure RepoState where
  events : List WineLotEvent
  newAggregateEvents : List (String × List WineLotEvent)
  eventStoreAppends : List WineLotEvent
  deletedEventModels : List EventRow
deriving DecidableEq, Repr

/-- The empty repository state, as produced by `__init__` / `clear()`. -/
def RepoState.empty : RepoState :=
  { events := [], newAggregateEvents := [], eventStoreAppends := [],
    deletedEventModels := [] }

/-- Lookup in the `_new_aggregate_events` dict (`None` when the aggregate is
not a key of the dict). -/
def repoLookup (m : List (String × List WineLotEvent)) (k : String) :
    Option (List WineLotEvent) :=
  (m.find? (fun p => p.1 = k)).map Prod.snd

/-- Write to the `_new_aggregate_events` dict: replace the value at an
existing key, else add the key. -/
def repoSet (m : List (String × List WineLotEvent)) (k : String)
    (v : List WineLotEvent) : List (String × List WineLotEvent) :=
  match m with
  | [] => [(k, v)]
  | p :: rest => if p.1 = k then (k, v) :: rest else p :: repoSet rest k v

/-- Model of `AggregateRepository.add` (`aggregate_repository.py`, lines
33-41): take the tail of the aggregate's `recorded_events` beyond what is
already buffered for it (`defaultdict` gives `[]` for a fresh key), append
that tail to `_new_aggregate_events[aggregate]`, `_event_stores` and
`_events`, and fold the aggregate's `deleted_event_models` into
`_deleted_event_models`. -/
def RepoState.add (repo : RepoState) (aggKey : String)
    (recordedEvents : List WineLotEvent) (deletedModels : List EventRow) :
    RepoState :=
  let buffered := (repoLookup repo.newAggregateEvents aggKey).getD []
  let addedEvents := recordedEvents.drop buffered.length
  { events := repo.events ++ addedEvents,
    newAggregateEvents := repoSet repo.newAggregateEvents aggKey (buffered ++ addedEvents),
    eventStoreAppends := repo.eventStoreAppends ++ addedEvents,
    deletedEventModels := repo.deletedEventModels ++ deletedModels }

/-- Model of `AggregateRepository.mark_aggregate_event_edited`
(`aggregate_repository.py`, lines 43-53): ensure the aggregate is registered
for persistence (an empty entry if it is not yet a key), and queue the stored
event row for deletion. -/
def RepoState.markAggregateEventEdited (repo : RepoState) (aggKey : String)
    (row : EventRow) : RepoState :=
  let m :=
    if (repoLookup repo.newAggregateEvents aggKey).isNone then
      repoSet repo.newAggregateEvents aggKey []
    else
      repo.newAggregateEvents
  { repo with
      newAggregateEvents := m
      deletedEventModels := repo.deletedEventModels ++ [row] }

/-- Lookup after a write at the same key returns the written value. -/
theorem repoLookup_repoSet (m : List (String × List WineLotEvent)) (k : String)
    (v : List WineLotEvent) : repoLookup (repoSet m k v) k = some v := by
  induction m with
  | nil => simp [repoSet, repoLookup]
  | cons p rest ih =>
    by_cases h : p.1 = k
    · simp [repoSet, repoLookup, h]
    · simp [repoSet, repoLookup, h, List.find?]
      simpa [repoLookup] using ih

/-- Overwriting a key twice is the same as writing it once. -/
theorem repoSet_repoSet (m : List (String × List WineLotEvent)) (k : String)
    (v w : List WineLotEvent) : repoSet (repoSet m k v) k w = repoSet m k w := by
  induction m with
  | nil => simp [repoSet]
  | cons p rest ih =>
    by_cases h : p.1 = k
    · simp [repoSet, h]
    · simp [repoSet, h, ih]

/-- C9: `AggregateRepository.add(aggregate)` appends to `_events`
(all notifications), `_event_stores` and `_new_aggregate_events[aggregate]`
exactly the tail of the aggregate's recorded events beyond what is already
buffered for it; a second `add` with no new recorded events in between
changes none of those three buffers; and when the buffered list is an
initial segment of the recorded events (as the buffering discipline
guarantees), the buffer afterwards equals the recorded list itself, so no
recorded event is buffered twice. -/
theorem AggregateRepository_add_buffers_tail (s : RepoState) (k : String)
    (rec : List WineLotEvent) (dels dels2 : List EventRow) :
    (s.add k rec dels).events
        = s.events ++ rec.drop ((repoLookup s.newAggregateEvents k).getD []).length
    ∧ (s.add k rec dels).eventStoreAppends
        = s.eventStoreAppends ++ rec.drop ((repoLookup s.newAggregateEvents k).getD []).length
    ∧ repoLookup (s.add k rec dels).newAggregateEvents k
        = some ((repoLookup s.newAggregateEvents k).getD []
            ++ rec.drop ((repoLookup s.newAggregateEvents k).getD []).length)
    ∧ ((s.add k rec dels).add k rec dels2).events = (s.add k rec dels).events
    ∧ ((s.add k rec dels).add k rec dels2).eventStoreAppends
        = (s.add k rec dels).eventStoreAppends
    ∧ ((s.add k rec dels).add k rec dels2).newAggregateEvents
        = (s.add k rec dels).newAggregateEvents
    ∧ (rec.take ((repoLookup s.newAggregateEvents k).getD []).length
          = (repoLookup s.newAggregateEvents k).getD [] →
        repoLookup (s.add k rec dels).newAggregateEvents k = some rec) := by
  have hlook : repoLookup (s.add k rec dels).newAggregateEvents k
      = some ((repoLookup s.newAggregateEvents k).getD []
          ++ rec.drop ((repoLookup s.newAggregateEvents k).getD []).length) := by
    simp [RepoState.add, repoLookup_repoSet]
  have hdropnil :
      rec.drop ((repoLookup s.newAggregateEvents k).getD []
          ++ rec.drop ((repoLookup s.newAggregateEvents k).getD []).length).length
        = [] := by
    apply List.drop_eq_nil_of_le
    simp only [List.length_append, List.length_drop]
    omega
  refine ⟨rfl, rfl, hlook, ?_, ?_, ?_, ?_⟩
  · simp only [RepoState.add, repoLookup_repoSet, Option.getD_some]
    rw [hdropnil, List.append_nil]
  · simp only [RepoState.add, repoLookup_repoSet, Option.getD_some]
    rw [hdropnil, List.append_nil]
  · simp only [RepoState.add, repoLookup_repoSet, Option.getD_some]
    rw [hdropnil, List.append_nil, repoSet_repoSet]
  · intro hpre
    rw [hlook]
    congr 1
    conv_rhs => rw [← List.take_append_drop
      ((repoLookup s.newAggregateEvents k).getD []).length rec]
    rw [hpre]

/-- C9 witness: the buffering facts at a concrete repository state holding
one already-buffered event, an aggregate that has recorded that event plus
one more, and an initial segment hypothesis discharged by computation. -/
theorem AggregateRepository_add_buffers_tail_witness :
    repoLookup
      ((RepoState.add
        { events := [WineLotEvent.updated "01LOT" "AB" "CD"],
          newAggregateEvents := [("01LOT", [WineLotEvent.updated "01LOT" "AB" "CD"])],
          eventStoreAppends := [WineLotEvent.updated "01LOT" "AB" "CD"],
          deletedEventModels := [] } "01LOT"
        [WineLotEvent.updated "01LOT" "AB" "CD", WineLotEvent.deleted "01LOT" ⟨9, 0⟩]
        []).newAggregateEvents) "01LOT"
      = some [WineLotEvent.updated "01LOT" "AB" "CD", WineLotEvent.deleted "01LOT" ⟨9, 0⟩] := by
  exact (AggregateRepository_add_buffers_tail
    { events := [WineLotEvent.updated "01LOT" "AB" "CD"],
      newAggregateEvents := [("01LOT", [WineLotEvent.updated "01LOT" "AB" "CD"])],
      eventStoreAppends := [WineLotEvent.updated "01LOT" "AB" "CD"],
      deletedEventModels := [] } "01LOT"
    [WineLotEvent.updated "01LOT" "AB" "CD", WineLotEvent.deleted "01LOT" ⟨9, 0⟩]
    [] []).2.2.2.2.2.2 (by decide)

/-- A persisted `WineLot` table row: `(id, version)` from `AggregateModel`
plus the domain columns `code`, `volume`, `deleted_at`.  `id` and `version`
are declared with `editable=False` in `eventsourcing/models.py`; the domain
columns are editable. -/
structure WineLotRow where
  id : String
  version : Nat
  code : String
  volume : ℚ
  deletedAt : Option DT
deriving DecidableEq, Repr

/-- Errors raised by `AggregateModel.persist`. -/
inductive PersistError where
  | cannotPersistView
  | outOfDateVersion
deriving DecidableEq, Repr

/-- Model of `AggregateModel.persist` (`eventsourcing/models.py`, lines
178-195) for `WineLot`.  When the instance is new (`_state.adding`), set
`version = 1` and insert the full row.  Otherwise issue
`UPDATE ... WHERE pk = id AND version = current_version` setting exactly the
fields with `field.editable` — which are `code`, `volume` and `deleted_at`,
and exclude `id` and `version` because both are declared `editable=False` —
after bumping the in-memory `self.version` to `current_version + 1`; raise
`OutOfDateVersion` when the update matched zero rows.  Returns the updated
table and the updated in-memory instance. -/
def WineLot.persist (st : WineLotState) (db : List WineLotRow) :
    Except PersistError (List WineLotRow × WineLotState) :=
  if st.persistable = false then
    Except.error PersistError.cannotPersistView
  else if st.adding then
    let inserted : WineLotRow :=
      { id := st.id, version := 1, code := st.code, volume := st.volume,
        deletedAt := st.deletedAt }
    Except.ok (db ++ [inserted], { st with version := 1, adding := false })
  else
    let currentVersion := st.version
    let updatedRows :=
      (db.filter (fun r => r.id = st.id ∧ r.version = currentVersion)).length
    let db' := db.map (fun r =>
      if r.id = st.id ∧ r.version = currentVersion then
        { r with code := st.code, volume := st.volume, deletedAt := st.deletedAt }
      else r)
    if updatedRows = 0 then
      Except.error PersistError.outOfDateVersion
    else
      Except.ok (db', { st with version := currentVersion + 1 })

/-- C4: evaluating `persist` on an existing aggregate at version 3 with a
changed volume.  The compare-and-update succeeds (the row matches on
`(id, version=3)`) and the in-memory instance shows version 4, but the
persisted row still carries version 3: the `UPDATE` only sets the
`field.editable` columns and `version` is `editable=False`, so the row's
version is never incremented, contradicting the claim (and the spec's
version-monotonicity invariant, on which optimistic concurrency relies). -/
theorem persist_leaves_row_version_unchanged :
    WineLot.persist
      { id := "01LOT", version := 3, code := "AB", volume := 2, deletedAt := none,
        adding := false, backdating := false, persistable := true }
      [{ id := "01LOT", version := 3, code := "AB", volume := 1, deletedAt := none }]
    = Except.ok
        ([{ id := "01LOT", version := 3, code := "AB", volume := 2, deletedAt := none }],
         { id := "01LOT", version := 4, code := "AB", volume := 2, deletedAt := none,
           adding := false, backdating := false, persistable := true })
    ∧ (3 : Nat) ≠ 3 + 1 := by
  exact ⟨rfl, by decide⟩

/-- Observable actions of a unit of work: tentative row writes, event
appends and deletions (all inside the database transaction), notification
dispatches (a side effect outside the database), and the final commit or
rollback of the transaction. -/
inductive Obs where
  | rowWrite
  | eventAppend
  | eventDelete
  | dispatch (idx : Nat)
  | commit
  | rollback
deriving DecidableEq, Repr

/-- Outcomes of the work buffered in one unit of work, abstracting the
repository content that `AggregateRepository.persist` drains: per registered
aggregate whether its optimistic row update succeeds (`False` means
`OutOfDateVersion`), the number of buffered event appends and deletions
together with flags for a database error during each bulk operation, and per
buffered notification whether its subscriber handles it without raising. -/
structure UowInput where
  aggregateOutcomes : List Bool
  appendCount : Nat
  appendFails : Bool
  deleteCount : Nat
  deleteFails : Bool
  subscriberOutcomes : List Bool
deriving DecidableEq, Repr

/-- Step (1) of `AggregateRepository.persist`: call `persist()` on each
registered aggregate in order, stopping at the first `OutOfDateVersion`.
Returns the row-write trace and whether the loop completed. -/
def persistAggregatesLoop : List Bool → (List Obs × Bool)
  | [] => ([], true)
  | b :: rest =>
    if b then
      let r := persistAggregatesLoop rest
      (Obs.rowWrite :: r.1, r.2)
    else
      ([], false)

/-- Step (4) of `AggregateRepository.persist`:
`get_notification_bus().dispatch_all(self._events)` dispatches each buffered
notification in order; an uncaught subscriber error aborts the remaining
dispatches.  Returns the dispatch trace, the indices actually dispatched,
and whether the loop completed. -/
def dispatchLoop : List Bool → Nat → (List Obs × List Nat × Bool)
  | [], _ => ([], [], true)
  | b :: rest, i =>
    if b then
      let r := dispatchLoop rest (i + 1)
      (Obs.dispatch i :: r.1, i :: r.2.1, r.2.2)
    else
      ([], [], false)

/-- Result of one unit of work: the committed database state (modelled as
the count of applied row changes), the observable trace, and the indices of
the notifications that were dispatched. -/
structure UowResult where
  db : Nat
  trace : List Obs
  dispatched : List Nat
deriving DecidableEq, Repr

/-- Model of the `store_aggregate_changes` decorator
(`eventsourcing/aggregate_repository.py`, lines 80-99): inside `atomic()`
run the wrapped body, then `AggregateRepository.persist()` — (1) persist
each registered aggregate, (2) bulk-append buffered events, (3) bulk-delete
retracted events, (4) `dispatch_all` the buffered notifications — and commit
on leaving the `atomic()` block; any exception rolls the transaction back
(tentative row changes are discarded) after `clear()`.  Note that the call
to `persist()`, including its dispatch step (4), happens INSIDE the
`atomic()` block, i.e. before the commit. -/
def storeAggregateChanges (bodyFails : Bool) (inp : UowInput) (db : Nat) : UowResult :=
  if bodyFails then
    { db := db, trace := [Obs.rollback], dispatched := [] }
  else
    let step1 := persistAggregatesLoop inp.aggregateOutcomes
    if step1.2 = false then
      { db := db, trace := step1.1 ++ [Obs.rollback], dispatched := [] }
    else if inp.appendFails then
      { db := db, trace := step1.1 ++ [Obs.rollback], dispatched := [] }
    else
      let tr2 := List.replicate inp.appendCount Obs.eventAppend
      if inp.deleteFails then
        { db := db, trace := step1.1 ++ tr2 ++ [Obs.rollback], dispatched := [] }
      else
        let tr3 := List.replicate inp.deleteCount Obs.eventDelete
        let step4 := dispatchLoop inp.subscriberOutcomes 0
        if step4.2.2 = false then
          { db := db, trace := step1.1 ++ tr2 ++ tr3 ++ step4.1 ++ [Obs.rollback],
            dispatched := step4.2.1 }
        else
          { db := db + step1.1.length + inp.appendCount + inp.deleteCount,
            trace := step1.1 ++ tr2 ++ tr3 ++ step4.1 ++ [Obs.commit],
            dispatched := step4.2.1 }

/-- Recognizer for dispatch observations. -/
def isDispatch : Obs → Bool
  | Obs.dispatch _ => true
  | _ => false

/-- The property "notification dispatch happens only after the transaction
has committed": no dispatch observation occurs before the commit
observation in the trace. -/
def dispatchesOnlyAfterCommit (tr : List Obs) : Bool :=
  (tr.takeWhile (fun o => decide (o ≠ Obs.commit))).all (fun o => !(isDispatch o))

/-- C2 counterexample: in a successful unit of work with one aggregate, one
buffered event and one notification, the observable trace is
`[rowWrite, eventAppend, dispatch 0, commit]` — the notification is
dispatched inside the transaction, strictly before the commit, so dispatch
does not happen only after the transaction has committed. -/
theorem notifications_dispatched_before_commit :
    storeAggregateChanges false
      { aggregateOutcomes := [true], appendCount := 1, appendFails := false,
        deleteCount := 0, deleteFails := false, subscriberOutcomes := [true] } 0
      = { db := 2, trace := [Obs.rowWrite, Obs.eventAppend, Obs.dispatch 0, Obs.commit],
          dispatched := [0] }
    ∧ dispatchesOnlyAfterCommit
        [Obs.rowWrite, Obs.eventAppend, Obs.dispatch 0, Obs.commit] = false := by
  exact ⟨rfl, rfl⟩

/-- A failing aggregate persist aborts the loop of step (1). -/
theorem persistAggregatesLoop_of_mem_false (l : List Bool) (h : false ∈ l) :
    (persistAggregatesLoop l).2 = false := by
  induction l with
  | nil => cases h
  | cons b rest ih =>
    cases h with
    | head => simp [persistAggregatesLoop]
    | tail _ hm =>
      cases b with
      | false => simp [persistAggregatesLoop]
      | true => simp [persistAggregatesLoop, ih hm]

/-- When every aggregate persist succeeds, step (1) writes one row per
aggregate and completes. -/
theorem persistAggregatesLoop_all_true (l : List Bool) (h : ∀ b ∈ l, b = true) :
    persistAggregatesLoop l = (List.replicate l.length Obs.rowWrite, true) := by
  induction l with
  | nil => rfl
  | cons b rest ih =>
    have hb : b = true := h b (by simp)
    subst hb
    simp [persistAggregatesLoop, ih (fun x hx => h x (by simp [hx])),
      List.replicate_succ]

/-- A failing subscriber aborts the dispatch loop of step (4). -/
theorem dispatchLoop_of_mem_false (l : List Bool) (h : false ∈ l) (i : Nat) :
    (dispatchLoop l i).2.2 = false := by
  induction l generalizing i with
  | nil => cases h
  | cons b rest ih =>
    cases h with
    | head => simp [dispatchLoop]
    | tail _ hm =>
      cases b with
      | false => simp [dispatchLoop]
      | true => simp [dispatchLoop, ih hm]

/-- When every subscriber succeeds, step (4) dispatches every buffered
notification in buffering order. -/
theorem dispatchLoop_all_true (l : List Bool) (h : ∀ b ∈ l, b = true) (i : Nat) :
    dispatchLoop l i
      = ((List.range' i l.length).map Obs.dispatch, List.range' i l.length, true) := by
  induction l generalizing i with
  | nil => rfl
  | cons b rest ih =>
    have hb : b = true := h b (by simp)
    subst hb
    simp [dispatchLoop, ih (fun x hx => h x (by simp [hx])) (i + 1), List.range'_succ]

/-- C2 (amended): in a unit-of-work scope, failure of the wrapped body or of
any of the transactional steps (1)-(3) of `persist()` results in zero row
changes and zero notifications dispatched; a failing subscriber still rolls
the transaction back (zero row changes), though notifications dispatched
before the failure are not undone; and on the fully successful path the
notifications are dispatched, in buffering order, inside the transaction —
after the row writes, event appends and deletions but BEFORE the commit, not
after it. -/
theorem persist_dispatches_inside_transaction (bodyFails : Bool) (inp : UowInput)
    (db : Nat) :
    ((bodyFails = true ∨ false ∈ inp.aggregateOutcomes ∨ inp.appendFails = true
        ∨ inp.deleteFails = true) →
      (storeAggregateChanges bodyFails inp db).db = db
      ∧ (storeAggregateChanges bodyFails inp db).dispatched = [])
    ∧ (false ∈ inp.subscriberOutcomes →
      (storeAggregateChanges bodyFails inp db).db = db)
    ∧ (bodyFails = false → (∀ b ∈ inp.aggregateOutcomes, b = true) →
        inp.appendFails = false → inp.deleteFails = false →
        (∀ b ∈ inp.subscriberOutcomes, b = true) →
      (storeAggregateChanges bodyFails inp db).trace
        = List.replicate inp.aggregateOutcomes.length Obs.rowWrite
          ++ List.replicate inp.appendCount Obs.eventAppend
          ++ List.replicate inp.deleteCount Obs.eventDelete
          ++ (List.range inp.subscriberOutcomes.length).map Obs.dispatch
          ++ [Obs.commit]
      ∧ (storeAggregateChanges bodyFails inp db).db
          = db + inp.aggregateOutcomes.length + inp.appendCount + inp.deleteCount
      ∧ (storeAggregateChanges bodyFails inp db).dispatched
          = List.range inp.subscriberOutcomes.length) := by
  refine ⟨?_, ?_, ?_⟩
  · intro h
    cases bodyFails with
    | true => simp [storeAggregateChanges]
    | false =>
      rcases h with h | h | h | h
      · cases h
      · simp [storeAggregateChanges, persistAggregatesLoop_of_mem_false _ h]
      · by_cases h1 : (persistAggregatesLoop inp.aggregateOutcomes).2 = false <;>
          simp [storeAggregateChanges, h1, h]
      · by_cases h1 : (persistAggregatesLoop inp.aggregateOutcomes).2 = false <;>
          by_cases h2 : inp.appendFails <;>
          simp [storeAggregateChanges, h1, h2, h]
  · intro h
    cases bodyFails with
    | true => simp [storeAggregateChanges]
    | false =>
      by_cases h1 : (persistAggregatesLoop inp.aggregateOutcomes).2 = false <;>
        by_cases h2 : inp.appendFails <;>
        by_cases h3 : inp.deleteFails <;>
        simp [storeAggregateChanges, h1, h2, h3, dispatchLoop_of_mem_false _ h 0]
  · intro hb h1 h2 h3 h4
    subst hb
    simp only [storeAggregateChanges, persistAggregatesLoop_all_true _ h1,
      dispatchLoop_all_true _ h4 0, h2, h3, Bool.false_eq_true, if_false,
      List.length_replicate, List.range_eq_range']
    refine ⟨?_, ?_, ?_⟩
    · simp [List.append_assoc]
    · simp
    · simp

/-- C2 witness: the amended theorem applied to a failing aggregate persist
(zero row changes, zero notifications), a failing subscriber (rolled back),
and a fully successful run (dispatch trace inside the transaction before the
commit). -/
theorem persist_dispatches_inside_transaction_witness :
    ((storeAggregateChanges false
        { aggregateOutcomes := [false], appendCount := 1, appendFails := false,
          deleteCount := 0, deleteFails := false, subscriberOutcomes := [true] } 5).db = 5
      ∧ (storeAggregateChanges false
        { aggregateOutcomes := [false], appendCount := 1, appendFails := false,
          deleteCount := 0, deleteFails := false, subscriberOutcomes := [true] } 5).dispatched = [])
    ∧ (storeAggregateChanges false
        { aggregateOutcomes := [true], appendCount := 0, appendFails := false,
          deleteCount := 0, deleteFails := false, subscriberOutcomes := [true, false] } 5).db = 5
    ∧ (storeAggregateChanges false
        { aggregateOutcomes := [true], appendCount := 1, appendFails := false,
          deleteCount := 0, deleteFails := false, subscriberOutcomes := [true] } 5).trace
        = [Obs.rowWrite, Obs.eventAppend, Obs.dispatch 0, Obs.commit] := by
  refine ⟨?_, ?_, ?_⟩
  · exact (persist_dispatches_inside_transaction false
      { aggregateOutcomes := [false], appendCount := 1, appendFails := false,
        deleteCount := 0, deleteFails := false, subscriberOutcomes := [true] } 5).1
      (Or.inr (Or.inl (by decide)))
  · exact (persist_dispatches_inside_transaction false
      { aggregateOutcomes := [true], appendCount := 0, appendFails := false,
        deleteCount := 0, deleteFails := false, subscriberOutcomes := [true, false] } 5).2.1
      (by decide)
  · have h := ((persist_dispatches_inside_transaction false
      { aggregateOutcomes := [true], appendCount := 1, appendFails := false,
        deleteCount := 0, deleteFails := false, subscriberOutcomes := [true] } 5).2.2
      rfl (by decide) rfl rfl (by decide)).1
    simpa using h

/-- Fold of stored event rows onto an aggregate state via `load`, mirroring
the replay loops of `eventsourcing/aggregates.py` (events in store order;
the first context-validation error aborts, as the raised `ValueError`
would). -/
def loadFold (oracle : WineLotEvent → String) (st : WineLotState) :
    List EventRow → Except String WineLotState
  | [] => Except.ok st
  | r :: rest =>
    match WineLotState.load oracle st r.data with
    | Except.error e => Except.error e
    | Except.ok st' => loadFold oracle st' rest

/-- Accumulator of `load_editable_aggregates_at_time_and_point`: the
`aggregates_by_id` dict (as a total function on ids), the
`rebuilt_aggregate_ids` set, and the `AggregateRepository` state receiving
`mark_aggregate_event_edited` calls. -/
structure EditAcc where
  states : String → WineLotState
  rebuilt : List String
  repo : RepoState

/-- Pointwise update of the `aggregates_by_id` dict. -/
def updState (f : String → WineLotState) (k : String) (v : WineLotState) :
    String → WineLotState :=
  fun x => if x = k then v else f x

/-- The initial `aggregates_by_id` dict (`aggregates.py`, lines 41-51): a
still-unpersisted aggregate (`_state.adding`) is kept as passed and marked
for backdating; a persisted aggregate is replaced by its `identity()`.
Later duplicates of an id overwrite earlier ones, as with a Python dict. -/
def initStates (aggregates : List WineLotState) : String → WineLotState :=
  fun x =>
    match aggregates.reverse.find? (fun agg => agg.id = x) with
    | some agg => if agg.adding then agg.markForBackdating else agg.identity
    | none => WineLotState.blank

/-- One iteration of the main loop of
`load_editable_aggregates_at_time_and_point` (`aggregates.py`, lines 64-70):
an event row carrying the edited sequence number is registered via
`mark_aggregate_event_edited`; any other row is loaded onto its aggregate,
which is recorded as rebuilt. -/
def editStep (oracle : WineLotEvent → String) (sequenceNumber : String)
    (acc : EditAcc) (row : EventRow) : Except String EditAcc :=
  if row.sequenceNumber = some sequenceNumber then
    Except.ok { acc with
      repo := acc.repo.markAggregateEventEdited row.aggregateId row }
  else
    match WineLotState.load oracle (acc.states row.aggregateId) row.data with
    | Except.error e => Except.error e
    | Except.ok st' =>
        Except.ok { acc with
          states := updState acc.states row.aggregateId st'
          rebuilt := row.aggregateId :: acc.rebuilt }

/-- The main loop of `load_editable_aggregates_at_time_and_point` over the
filtered event rows, in store order. -/
def processEditRows (oracle : WineLotEvent → String) (sequenceNumber : String) :
    List EventRow → EditAcc → Except String EditAcc
  | [], acc => Except.ok acc
  | row :: rest, acc =>
    match editStep oracle sequenceNumber acc row with
    | Except.error e => Except.error e
    | Except.ok acc' => processEditRows oracle sequenceNumber rest acc'

/-- The seeding branch for one not-rebuilt aggregate (`aggregates.py`, lines
74-85): the earliest stored event of the aggregate excluding the edited
sequence number (the `distinct("aggregate_id")` row of the canonical-order
queryset) is loaded onto it and the aggregate is marked for backdating;
an aggregate with no such event is left untouched. -/
def seedOne (oracle : WineLotEvent → String) (sequenceNumber : String)
    (db : List EventRow) (acc : EditAcc) (a : String) : Except String EditAcc :=
  match (db.filter (fun r =>
      decide (r.aggregateId = a) && !(decide (r.sequenceNumber = some sequenceNumber)))).head? with
  | none => Except.ok acc
  | some row =>
    match WineLotState.load oracle (acc.states a) row.data with
    | Except.error e => Except.error e
    | Except.ok st' =>
        Except.ok { acc with states := updState acc.states a st'.markForBackdating }

/-- The seeding loop over all not-rebuilt aggregate ids. -/
def seedAll (oracle : WineLotEvent → String) (sequenceNumber : String)
    (db : List EventRow) : List String → EditAcc → Except String EditAcc
  | [], acc => Except.ok acc
  | a :: rest, acc =>
    match seedOne oracle sequenceNumber db acc a with
    | Except.error e => Except.error e
    | Except.ok acc' => seedAll oracle sequenceNumber db rest acc'

/-- Model of `load_editable_aggregates_at_time_and_point`
(`eventsourcing/aggregates.py`, lines 21-87).  `db` is the event store's full
row list in canonical order.  Produces the editable `aggregates_by_id`
states, the rebuilt-id set and the repository buffer holding the
`mark_aggregate_event_edited` registrations. -/
def loadEditableAggregatesAtTimeAndPoint (oracle : WineLotEvent → String)
    (db : List EventRow) (aggregates : List WineLotState) (occurredAt : DT)
    (sequenceNumber : String) : Except String EditAcc :=
  let keys := aggregates.map (fun agg => agg.id)
  let acc0 : EditAcc :=
    { states := initStates aggregates, rebuilt := [], repo := RepoState.empty }
  let rows := db.filter (fun r =>
    decide (r.aggregateId ∈ keys) && editWindowAtPoint occurredAt sequenceNumber r)
  match processEditRows oracle sequenceNumber rows acc0 with
  | Except.error e => Except.error e
  | Except.ok acc1 =>
      let notRebuilt := keys.filter (fun a => !(decide (a ∈ acc1.rebuilt)))
      seedAll oracle sequenceNumber db notRebuilt acc1

/-- C3 counterexample: with one persisted aggregate and two stored events —
a `VolumeReceived` of 10 before the cutoff and a `VolumeReceived` of 5 at
`(t, seq)` itself — `load_editable_aggregates_at_time_and_point` rebuilds the
aggregate to volume 10, marking the `(t, seq)` event for deletion WITHOUT
folding it, whereas the claimed fold over ALL events of the window
(including the one with `sequence_number = seq`) yields volume 15. -/
theorem editedEvent_marked_not_folded :
    (loadEditableAggregatesAtTimeAndPoint (fun _ => "")
        [{ id := 1, aggregateId := "01LOT", occurredAt := ⟨10, 0⟩,
           sequenceNumber := some "01AAA",
           data := WineLotEvent.volumeReceived "01LOT" "01AAA" ⟨10, 0⟩ 10 },
         { id := 2, aggregateId := "01LOT", occurredAt := ⟨20, 0⟩,
           sequenceNumber := some "01BBB",
           data := WineLotEvent.volumeReceived "01LOT" "01BBB" ⟨20, 0⟩ 5 }]
        [{ id := "01LOT", version := 2, code := "AB", volume := 15, deletedAt := none,
           adding := false, backdating := false, persistable := true }]
        ⟨20, 0⟩ "01BBB").map
        (fun acc => ((acc.states "01LOT").volume, acc.repo.deletedEventModels))
      = Except.ok (10,
          [{ id := 2, aggregateId := "01LOT", occurredAt := ⟨20, 0⟩,
             sequenceNumber := some "01BBB",
             data := WineLotEvent.volumeReceived "01LOT" "01BBB" ⟨20, 0⟩ 5 }])
    ∧ (loadFold (fun _ => "")
        (WineLotState.identity
          { id := "01LOT", version := 2, code := "AB", volume := 15, deletedAt := none,
            adding := false, backdating := false, persistable := true })
        [{ id := 1, aggregateId := "01LOT", occurredAt := ⟨10, 0⟩,
           sequenceNumber := some "01AAA",
           data := WineLotEvent.volumeReceived "01LOT" "01AAA" ⟨10, 0⟩ 10 },
         { id := 2, aggregateId := "01LOT", occurredAt := ⟨20, 0⟩,
           sequenceNumber := some "01BBB",
           data := WineLotEvent.volumeReceived "01LOT" "01BBB" ⟨20, 0⟩ 5 }]).map
        WineLotState.volume
      = Except.ok 15
    ∧ (10 : ℚ) ≠ 15 := by
  refine ⟨?_, ?_, by norm_num⟩
  · norm_num +decide [loadEditableAggregatesAtTimeAndPoint, processEditRows, editStep,
      initStates, RepoState.empty, RepoState.markAggregateEventEdited, updState,
      WineLotState.load, WineLotState.validateEventContext, WineLotState.applyEvent,
      WineLotState.identity, WineLotState.blank, WineLotState.markForBackdating,
      editWindowAtPoint, seqLeb, strLeb, strLtb, charListLtb, DT.ltb, seedAll, seedOne,
      repoSet, repoLookup, Except.map]
  · norm_num +decide [loadFold, WineLotState.load, WineLotState.validateEventContext,
      WineLotState.applyEvent, WineLotState.identity, WineLotState.blank, Except.map]

/-- Decomposition of the main replay loop: when it succeeds, each
aggregate's final state is the `load` fold of exactly its own rows that do
NOT carry the edited sequence number, the rows carrying it are appended to
the deletion queue in order, and an aggregate counts as rebuilt exactly when
it owns at least one folded row. -/
theorem processEditRows_decompose (oracle : WineLotEvent → String) (seq : String)
    (rows : List EventRow) (acc acc2 : EditAcc)
    (h : processEditRows oracle seq rows acc = Except.ok acc2) (a : String) :
    loadFold oracle (acc.states a)
        (rows.filter (fun r =>
          decide (r.aggregateId = a) && !(decide (r.sequenceNumber = some seq))))
      = Except.ok (acc2.states a)
    ∧ acc2.repo.deletedEventModels
      = acc.repo.deletedEventModels
        ++ rows.filter (fun r => decide (r.sequenceNumber = some seq))
    ∧ (a ∈ acc2.rebuilt ↔ a ∈ acc.rebuilt
        ∨ ∃ r ∈ rows, r.aggregateId = a ∧ r.sequenceNumber ≠ some seq) := by
  induction rows generalizing acc with
  | nil =>
    simp only [processEditRows, Except.ok.injEq] at h
    subst h
    simp [loadFold]
  | cons row rest ih =>
    simp only [processEditRows, editStep] at h
    by_cases hs : row.sequenceNumber = some seq
    · rw [if_pos hs] at h
      have ihh := ih _ h
      refine ⟨?_, ?_, ?_⟩
      · rw [List.filter_cons_of_neg (by simp [hs])]
        exact ihh.1
      · rw [List.filter_cons_of_pos (by simp [hs])]
        rw [ihh.2.1]
        simp [RepoState.markAggregateEventEdited, List.append_assoc]
      · rw [ihh.2.2]
        constructor
        · rintro (hmem | ⟨r, hr, hra, hrs⟩)
          · exact Or.inl hmem
          · exact Or.inr ⟨r, List.mem_cons_of_mem _ hr, hra, hrs⟩
        · rintro (hmem | ⟨r, hr, hra, hrs⟩)
          · exact Or.inl hmem
          · rcases List.mem_cons.mp hr with rfl | hr2
            · exact absurd hs hrs
            · exact Or.inr ⟨r, hr2, hra, hrs⟩
    · rw [if_neg hs] at h
      cases hload : WineLotState.load oracle (acc.states row.aggregateId) row.data with
      | error e => rw [hload] at h; exact absurd h (by simp)
      | ok st2 =>
        rw [hload] at h
        have ihh := ih _ h
        by_cases ha : row.aggregateId = a
        · subst ha
          refine ⟨?_, ?_, ?_⟩
          · rw [List.filter_cons_of_pos (by simp [hs])]
            simp only [loadFold, hload]
            have := ihh.1
            simpa [updState] using this
          · rw [List.filter_cons_of_neg (by simp [hs])]
            simpa using ihh.2.1
          · rw [ihh.2.2]
            constructor
            · intro _
              exact Or.inr ⟨row, List.mem_cons_self _ _, rfl, hs⟩
            · intro _
              simp
        · have ha2 : ¬ a = row.aggregateId := fun hh => ha hh.symm
          refine ⟨?_, ?_, ?_⟩
          · rw [List.filter_cons_of_neg (by simp [ha])]
            have := ihh.1
            simpa [updState, ha2] using this
          · rw [List.filter_cons_of_neg (by simp [hs])]
            simpa using ihh.2.1
          · rw [ihh.2.2]
            constructor
            · rintro (hmem | ⟨r, hr, hra, hrs⟩)
              · rcases List.mem_cons.mp hmem with rfl | hmem2
                · exact absurd rfl ha
                · exact Or.inl hmem2
              · exact Or.inr ⟨r, List.mem_cons_of_mem _ hr, hra, hrs⟩
            · rintro (hmem | ⟨r, hr, hra, hrs⟩)
              · exact Or.inl (List.mem_cons_of_mem _ hmem)
              · rcases List.mem_cons.mp hr with rfl | hr2
                · exact absurd hra ha
                · exact Or.inr ⟨r, hr2, hra, hrs⟩

/-- The seeding loop only touches the states of the ids it is given: for any
other aggregate the state, the rebuilt set and the repository buffers are
unchanged. -/
theorem seedAll_preserves (oracle : WineLotEvent → String) (seq : String)
    (db : List EventRow) (ids : List String) (acc acc2 : EditAcc)
    (h : seedAll oracle seq db ids acc = Except.ok acc2) (a : String) (ha : a ∉ ids) :
    acc2.states a = acc.states a ∧ acc2.repo = acc.repo ∧ acc2.rebuilt = acc.rebuilt := by
  induction ids generalizing acc with
  | nil =>
    simp only [seedAll, Except.ok.injEq] at h
    subst h
    exact ⟨rfl, rfl, rfl⟩
  | cons b rest ih =>
    have hab : a ≠ b := fun hh => ha (hh ▸ List.mem_cons_self b rest)
    have harest : a ∉ rest := fun hh => ha (List.mem_cons_of_mem _ hh)
    cases hhead : (db.filter (fun r =>
        decide (r.aggregateId = b) && !(decide (r.sequenceNumber = some seq)))).head? with
    | none =>
      simp only [seedAll, seedOne, hhead] at h
      exact ih _ h harest
    | some row =>
      simp only [seedAll, seedOne, hhead] at h
      cases hload : WineLotState.load oracle (acc.states b) row.data with
      | error e => simp [hload] at h
      | ok st2 =>
        simp only [hload] at h
        have ihh := ih _ h harest
        refine ⟨?_, ihh.2.1, ihh.2.2⟩
        rw [ihh.1]
        simp [updState, hab]

/-- The initial `aggregates_by_id` entry of a persisted input aggregate
(with distinct input ids) is its `identity()`. -/
theorem initStates_eq_identity (aggregates : List WineLotState) (agg : WineLotState)
    (hmem : agg ∈ aggregates)
    (hnodup : (aggregates.map (fun x => x.id)).Nodup)
    (hadd : agg.adding = false) :
    initStates aggregates agg.id = agg.identity := by
  have key : ∀ l : List WineLotState, agg ∈ l → (l.map (fun x => x.id)).Nodup →
      l.find? (fun x => x.id = agg.id) = some agg := by
    intro l
    induction l with
    | nil => intro h; cases h
    | cons x rest ih =>
      intro hm hnd
      rcases List.mem_cons.mp hm with rfl | hm2
      · simp [List.find?]
      · by_cases hx : x.id = agg.id
        · exfalso
          have hxnot : x.id ∉ rest.map (fun y => y.id) := by
            have := hnd
            simp only [List.map_cons, List.nodup_cons] at this
            exact this.1
          exact hxnot (hx ▸ List.mem_map.mpr ⟨agg, hm2, rfl⟩)
        · rw [List.find?_cons_of_neg _ (by simp [hx])]
          exact ih hm2 (by
            have := hnd
            simp only [List.map_cons, List.nodup_cons] at this
            exact this.2)
  have hrev : aggregates.reverse.find? (fun x => x.id = agg.id) = some agg := by
    apply key
    · exact List.mem_reverse.mpr hmem
    · rw [List.map_reverse]
      exact List.nodup_reverse.mpr hnodup
  unfold initStates
  rw [hrev]
  simp [hadd]

/-- Restriction of the window rows to one aggregate id (a member of the
input key set) with the edited sequence number excluded. -/
theorem filter_window_simplify (db : List EventRow) (keys : List String)
    (t : DT) (seq : String) (a : String) (ha : a ∈ keys) :
    (db.filter (fun r =>
        decide (r.aggregateId ∈ keys) && editWindowAtPoint t seq r)).filter
      (fun r => decide (r.aggregateId = a) && !(decide (r.sequenceNumber = some seq)))
    = db.filter (fun r => decide (r.aggregateId = a) && editWindowAtPoint t seq r
        && !(decide (r.sequenceNumber = some seq))) := by
  rw [List.filter_filter]
  apply List.filter_congr
  intro r _
  by_cases h1 : r.aggregateId = a
  · simp [h1, ha, Bool.and_comm, Bool.and_assoc, Bool.and_left_comm]
  · simp [h1]

/-- C3 (amended): in `load_editable_at_time_and_point(aggregates, t, seq)`,
for every persisted input aggregate (distinct input ids) that has at least
one stored event in the window `occurred_at < t OR (occurred_at = t AND
sequence_number <= seq)` with `sequence_number ≠ seq`, the rebuilt state is
the fold (via `load`, onto `identity()`) of exactly those window events with
`sequence_number ≠ seq`, in store order; and the events of the window whose
`sequence_number` equals `seq` are NOT folded but registered via
`mark_event_edited`, in order, so that they are deleted at commit time.
(Aggregates with no such window event instead go through the backdating
seeding branch.) -/
theorem loadEditableAtTimeAndPoint_spec (oracle : WineLotEvent → String)
    (db : List EventRow) (aggregates : List WineLotState) (t : DT) (seq : String)
    (agg : WineLotState) (acc : EditAcc)
    (hrun : loadEditableAggregatesAtTimeAndPoint oracle db aggregates t seq
      = Except.ok acc)
    (hmem : agg ∈ aggregates)
    (hnodup : (aggregates.map (fun x => x.id)).Nodup)
    (hadd : agg.adding = false)
    (hhas : db.filter (fun r => decide (r.aggregateId = agg.id)
        && editWindowAtPoint t seq r
        && !(decide (r.sequenceNumber = some seq))) ≠ []) :
    loadFold oracle agg.identity
        (db.filter (fun r => decide (r.aggregateId = agg.id)
          && editWindowAtPoint t seq r
          && !(decide (r.sequenceNumber = some seq))))
      = Except.ok (acc.states agg.id)
    ∧ acc.repo.deletedEventModels
      = (db.filter (fun r =>
          decide (r.aggregateId ∈ aggregates.map (fun x => x.id))
            && editWindowAtPoint t seq r)).filter
          (fun r => decide (r.sequenceNumber = some seq)) := by
  have hkey : agg.id ∈ aggregates.map (fun x => x.id) :=
    List.mem_map.mpr ⟨agg, hmem, rfl⟩
  have hfw := filter_window_simplify db (aggregates.map (fun x => x.id)) t seq agg.id hkey
  cases hp : processEditRows oracle seq
      (db.filter (fun r => decide (r.aggregateId ∈ aggregates.map (fun x => x.id))
        && editWindowAtPoint t seq r))
      { states := initStates aggregates, rebuilt := [], repo := RepoState.empty } with
  | error e =>
    simp only [loadEditableAggregatesAtTimeAndPoint, hp] at hrun
    exact absurd hrun (by simp)
  | ok acc1 =>
    simp only [loadEditableAggregatesAtTimeAndPoint, hp] at hrun
    have dec := processEditRows_decompose oracle seq _ _ _ hp agg.id
    have hrebuilt : agg.id ∈ acc1.rebuilt := by
      apply dec.2.2.mpr
      refine Or.inr ?_
      have hne : (db.filter (fun r =>
          decide (r.aggregateId ∈ aggregates.map (fun x => x.id))
            && editWindowAtPoint t seq r)).filter
          (fun r => decide (r.aggregateId = agg.id)
            && !(decide (r.sequenceNumber = some seq))) ≠ [] := by
        rw [hfw]
        exact hhas
      obtain ⟨r, hr⟩ := List.exists_mem_of_ne_nil _ hne
      have hr2 := List.mem_filter.mp hr
      refine ⟨r, hr2.1, ?_, ?_⟩
      · have := hr2.2
        simp only [Bool.and_eq_true, decide_eq_true_eq] at this
        exact this.1
      · have := hr2.2
        simp only [Bool.and_eq_true, Bool.not_eq_true', decide_eq_false_iff_not] at this
        exact this.2
    have hnotin : agg.id ∉ (aggregates.map (fun x => x.id)).filter
        (fun a => !(decide (a ∈ acc1.rebuilt))) := by
      intro hin
      have := (List.mem_filter.mp hin).2
      simp only [Bool.not_eq_true', decide_eq_false_iff_not] at this
      exact this hrebuilt
    have hseed := seedAll_preserves oracle seq db _ acc1 acc hrun agg.id hnotin
    constructor
    · rw [hseed.1.symm] at dec
      have h1 := dec.1
      rw [hfw] at h1
      dsimp only at h1
      rw [initStates_eq_identity aggregates agg hmem hnodup hadd] at h1
      exact h1
    · rw [hseed.2.1]
      have h2 := dec.2.1
      simpa [RepoState.empty] using h2

/-- Demo event store for the edit-replay theorems: one receipt of 10 before
the cutoff and one receipt of 5 at the edited `(t, seq)` point itself. -/
def editDemoDb : List EventRow :=
  [{ id := 1, aggregateId := "01LOT", occurredAt := ⟨10, 0⟩,
     sequenceNumber := some "01AAA",
     data := WineLotEvent.volumeReceived "01LOT" "01AAA" ⟨10, 0⟩ 10 },
   { id := 2, aggregateId := "01LOT", occurredAt := ⟨20, 0⟩,
     sequenceNumber := some "01BBB",
     data := WineLotEvent.volumeReceived "01LOT" "01BBB" ⟨20, 0⟩ 5 }]

/-- Demo persisted aggregate for the edit-replay theorems. -/
def editDemoLot : WineLotState :=
  { id := "01LOT", version := 2, code := "AB", volume := 15, deletedAt := none,
    adding := false, backdating := false, persistable := true }

/-- C3 witness: the amended theorem applied to the demo store — the event at
the edited point is queued for deletion (and only it). -/
theorem loadEditableAtTimeAndPoint_spec_witness :
    (loadEditableAggregatesAtTimeAndPoint (fun _ => "") editDemoDb [editDemoLot]
        ⟨20, 0⟩ "01BBB").map (fun acc => acc.repo.deletedEventModels)
      = Except.ok
          [{ id := 2, aggregateId := "01LOT", occurredAt := ⟨20, 0⟩,
             sequenceNumber := some "01BBB",
             data := WineLotEvent.volumeReceived "01LOT" "01BBB" ⟨20, 0⟩ 5 }] := by
  cases hacc : loadEditableAggregatesAtTimeAndPoint (fun _ => "") editDemoDb
      [editDemoLot] ⟨20, 0⟩ "01BBB" with
  | error e =>
    exfalso
    have heval : (loadEditableAggregatesAtTimeAndPoint (fun _ => "") editDemoDb
        [editDemoLot] ⟨20, 0⟩ "01BBB").map (fun acc => acc.repo.deletedEventModels)
        = Except.ok
          [{ id := 2, aggregateId := "01LOT", occurredAt := ⟨20, 0⟩,
             sequenceNumber := some "01BBB",
             data := WineLotEvent.volumeReceived "01LOT" "01BBB" ⟨20, 0⟩ 5 }] := by
      norm_num +decide [editDemoDb, editDemoLot,
        loadEditableAggregatesAtTimeAndPoint, processEditRows, editStep,
        initStates, RepoState.empty, RepoState.markAggregateEventEdited, updState,
        WineLotState.load, WineLotState.validateEventContext, WineLotState.applyEvent,
        WineLotState.identity, WineLotState.blank, WineLotState.markForBackdating,
        editWindowAtPoint, seqLeb, strLeb, strLtb, charListLtb, DT.ltb, seedAll, seedOne,
        repoSet, repoLookup, Except.map]
    rw [hacc] at heval
    exact absurd heval (by simp [Except.map])
  | ok acc =>
    have spec := loadEditableAtTimeAndPoint_spec (fun _ => "") editDemoDb [editDemoLot]
      ⟨20, 0⟩ "01BBB" editDemoLot acc hacc (by simp) (by decide) rfl (by decide)
    show Except.ok (acc.repo.deletedEventModels) = _
    rw [spec.2]
    decide

/-- Accumulator of `_build_lot_compositions`
(`winemaking/use_cases/calculate_composition.py`): the per-lot `Composition`
dict and the per-lot transient `WineLot` snapshot dict. -/
structure CompAcc where
  lotCompositions : String → Option LotComposition
  lots : String → Option WineLotState

/-- The empty accumulator (`lot_compositions = {}`, `lots = {}`). -/
def CompAcc.empty : CompAcc :=
  { lotCompositions := fun _ => none, lots := fun _ => none }

/-- The dict comprehension of `WineLotCreated.composition`: build the
component dict from the event's `components` list (later duplicates of a
component overwrite earlier ones, as in a Python dict comprehension). -/
def componentsToDict (comps : List (LotComponent × ℚ)) : CompDict :=
  comps.foldl (fun d p => dictSet d p.1 p.2) []

/-- The inner loops of the `VOLUME_BLENDED` branch: for each `(comp, pct)`
entry of a source dict, `new[comp] = new.get(comp, 0) + pct * weight`. -/
def addScaled (weight : ℚ) (src : CompDict) (d : CompDict) : CompDict :=
  src.foldl (fun acc p => dictSet acc p.1 (dictGet acc p.1 + p.2 * weight)) d

/-- The loop over `event_data.volumes.items()` of the `VOLUME_BLENDED`
branch: skip non-positive blend volumes; look up each remaining source lot's
current composition (`KeyError` when absent) and add it scaled by
`blend_volume / new_total_volume`. -/
def addBlendSources (comps : String → Option LotComposition) (newTotal : ℚ) :
    List (String × ℚ) → CompDict → Except String CompDict
  | [], d => Except.ok d
  | (srcId, v) :: rest, d =>
    if v ≤ 0 then addBlendSources comps newTotal rest d
    else
      match comps srcId with
      | none => Except.error "KeyError: blended lot composition"
      | some src =>
          addBlendSources comps newTotal rest (addScaled (v / newTotal) src.components d)

/-- One iteration of the fold of `_build_lot_compositions` (lines 83-124).
On `CREATED`: install the event's validated composition and a fresh snapshot
lot loaded from the event, then continue.  Otherwise look the snapshot up
(`KeyError` when absent); on `VOLUME_BLENDED` recompute the receiving lot's
composition — existing contents weighted by `lot_volume / new_total_volume`
when `lot_volume > 0`, plus each positive source weighted by
`blend_volume / new_total_volume` — validating the result; a division with
`new_total_volume = 0` raises.  Finally `lot.load(event)` updates the
snapshot. -/
def buildStep (oracle : WineLotEvent → String) (acc : CompAcc) (row : EventRow) :
    Except String CompAcc :=
  match row.data with
  | WineLotEvent.created _ _ comps _ =>
    (match mkComposition (componentsToDict comps) with
     | Except.error e => Except.error e
     | Except.ok c =>
       match WineLotState.load oracle WineLotState.blank row.data with
       | Except.error e => Except.error e
       | Except.ok lot =>
         Except.ok
           { lotCompositions := fun x =>
               if x = row.aggregateId then some c else acc.lotCompositions x,
             lots := fun x => if x = row.aggregateId then some lot else acc.lots x })
  | _ =>
    match acc.lots row.aggregateId with
    | none => Except.error "KeyError: lot"
    | some lot =>
      let step2 : Except String CompAcc :=
        match row.data with
        | WineLotEvent.volumeBlended _ _ _ volumes _ =>
          (match acc.lotCompositions row.aggregateId with
           | none => Except.error "KeyError: lot composition"
           | some lotComposition =>
             let blendedTotal := (volumes.map Prod.snd).sum
             let newTotal := lot.volume + blendedTotal
             if newTotal = 0 ∧ (0 < lot.volume ∨ volumes.any (fun p => decide (0 < p.2))) then
               Except.error "DivisionByZero"
             else
               let base : CompDict :=
                 if 0 < lot.volume then
                   addScaled (lot.volume / newTotal) lotComposition.components []
                 else []
               match addBlendSources acc.lotCompositions newTotal volumes base with
               | Except.error e => Except.error e
               | Except.ok newComponents =>
                 match mkComposition newComponents with
                 | Except.error e => Except.error e
                 | Except.ok newComposition =>
                   Except.ok { acc with lotCompositions := fun x =>
                     if x = row.aggregateId then some newComposition
                     else acc.lotCompositions x })
        | _ => Except.ok acc
      match step2 with
      | Except.error e => Except.error e
      | Except.ok acc2 =>
        match WineLotState.load oracle lot row.data with
        | Except.error e => Except.error e
        | Except.ok lot2 =>
          Except.ok { acc2 with lots := fun x =>
            if x = row.aggregateId then some lot2 else acc2.lots x }

/-- The fold of `_build_lot_compositions` over the filtered rows in store
(canonical) order. -/
def processBuildRows (oracle : WineLotEvent → String) :
    List EventRow → CompAcc → Except String CompAcc
  | [], acc => Except.ok acc
  | row :: rest, acc =>
    match buildStep oracle acc row with
    | Except.error e => Except.error e
    | Except.ok acc2 => processBuildRows oracle rest acc2

/-- The row filter of `_build_lot_compositions` (lines 68-78): rows of the
given lots, cut off at `effective_at` (+ `action_id`) when provided. -/
def relevantEventsFilter (lotIds : List String) (effectiveAt : Option DT)
    (actionId : Option String) (r : EventRow) : Bool :=
  decide (r.aggregateId ∈ lotIds) &&
    (match effectiveAt, actionId with
     | some t, some a => compositionCutoffAtPoint t a r
     | some t, none => compositionCutoffAtTime t r
     | none, _ => true)

/-- Model of `_build_lot_compositions(lot_ids, effective_at, action_id)`. -/
def buildLotCompositions (oracle : WineLotEvent → String) (db : List EventRow)
    (lotIds : List String) (effectiveAt : Option DT) (actionId : Option String) :
    Except String CompAcc :=
  processBuildRows oracle (db.filter (relevantEventsFilter lotIds effectiveAt actionId))
    CompAcc.empty

/-- The `volumes` mapping of a `VolumeBlended` payload (empty otherwise). -/
def WineLotEvent.blendVolumes : WineLotEvent → List (String × ℚ)
  | .volumeBlended _ _ _ volumes _ => volumes
  | _ => []

/-- Whether a payload is a `VolumeBlended` event. -/
def WineLotEvent.isVolumeBlended : WineLotEvent → Bool
  | .volumeBlended _ _ _ _ _ => true
  | _ => false

/-- The source lot ids found in the cutoff-filtered `VOLUME_BLENDED` events
of one lot (`_get_all_lot_ids`, lines 147-160). -/
def blendSourceIdsOf (db : List EventRow) (effectiveAt : Option DT)
    (actionId : Option String) (lotId : String) : List String :=
  ((db.filter (fun r => decide (r.aggregateId = lotId)
      && r.data.isVolumeBlended
      && (match effectiveAt, actionId with
          | some t, some a => compositionCutoffAtPoint t a r
          | some t, none => compositionCutoffAtTime t r
          | none, _ => true))).map
    (fun r => r.data.blendVolumes.map Prod.fst)).flatten

/-- One pass of the inner loop of `_get_all_lot_ids`: sequentially add each
source id not yet discovered to the discovered set and the queue. -/
def addNewLotIds (discovered queue : List String) :
    List String → (List String × List String)
  | [] => (discovered, queue)
  | s :: rest =>
    if s ∈ discovered then addNewLotIds discovered queue rest
    else addNewLotIds (discovered ++ [s]) (queue ++ [s]) rest

/-- The breadth-first loop of `_get_all_lot_ids`, with explicit fuel (the
Python `while queue` loop terminates because each iteration pops one queued
id and every id enters the queue at most once). -/
def bfsLotIds (step : String → List String) :
    Nat → List String → List String → List String
  | 0, discovered, _ => discovered
  | _ + 1, discovered, [] => discovered
  | n + 1, discovered, current :: queue =>
    let next := addNewLotIds discovered queue (step current)
    bfsLotIds step n next.1 next.2

/-- Model of `_get_all_lot_ids(lot_id, effective_at, action_id)`: the fuel
bound `1 + Σ |volumes|` dominates the number of ids that can ever be
queued. -/
def getAllLotIds (db : List EventRow) (lotId : String) (effectiveAt : Option DT)
    (actionId : Option String) : List String :=
  bfsLotIds (blendSourceIdsOf db effectiveAt actionId)
    (1 + (db.map (fun r => r.data.blendVolumes.length)).sum)
    [lotId] [lotId]

/-- Model of `calculate_composition(lot_id, effective_at, action_id)`
(`winemaking/use_cases/calculate_composition.py`, lines 14-60): truncate the
cutoff to whole seconds, raise `ValueError` when `action_id` comes without
`effective_at`, raise `ValueError` when the lot does not exist (`wineLots`
is the set of persisted `WineLot` ids), then discover the involved lots and
fold their events; the target lot's entry of the resulting dict is returned
(`KeyError` when it has no `CREATED` event in the window). -/
def calculateComposition (oracle : WineLotEvent → String) (db : List EventRow)
    (wineLots : List String) (lotId : String) (effectiveAt : Option DT)
    (actionId : Option String) : Except String LotComposition :=
  let effectiveAt := effectiveAt.map DT.truncate
  if actionId.isSome ∧ effectiveAt.isNone then
    Except.error "effective_at must be provided when action_id is specified."
  else if lotId ∉ wineLots then
    Except.error "Wine lot does not exist."
  else
    match buildLotCompositions oracle db (getAllLotIds db lotId effectiveAt actionId)
        effectiveAt actionId with
    | Except.error e => Except.error e
    | Except.ok acc =>
      match acc.lotCompositions lotId with
      | none => Except.error "KeyError: lot composition"
      | some c => Except.ok c

/-- C8: `calculate_composition(lot_id, effective_at, action_id)` raises
`ValueError` when `action_id` is provided without `effective_at`; raises
`ValueError` when (that check passing) no `WineLot` with the given id
exists; and otherwise truncates `effective_at` to whole seconds — dropping
any sub-second part — before using it as the cutoff, so a cutoff with a
microsecond component gives exactly the result of the same cutoff with the
microseconds dropped. -/
theorem calculateComposition_errors_and_truncation (oracle : WineLotEvent → String)
    (db : List EventRow) (wineLots : List String) (lotId : String)
    (effectiveAt : Option DT) (actionId : Option String) :
    (actionId.isSome = true → effectiveAt = none →
      calculateComposition oracle db wineLots lotId effectiveAt actionId
        = Except.error "effective_at must be provided when action_id is specified.")
    ∧ (¬ (actionId.isSome = true ∧ effectiveAt = none) → lotId ∉ wineLots →
      calculateComposition oracle db wineLots lotId effectiveAt actionId
        = Except.error "Wine lot does not exist.")
    ∧ (∀ sec : Int, ∀ micro : Nat,
      calculateComposition oracle db wineLots lotId (some ⟨sec, micro⟩) actionId
        = calculateComposition oracle db wineLots lotId (some ⟨sec, 0⟩) actionId) := by
  refine ⟨?_, ?_, ?_⟩
  · intro hsome hnone
    subst hnone
    simp [calculateComposition, hsome]
  · intro hcond hlot
    cases effectiveAt with
    | none =>
      have : actionId.isSome ≠ true := fun hh => hcond ⟨hh, rfl⟩
      simp only [Bool.not_eq_true] at this
      simp [calculateComposition, this, hlot]
    | some t =>
      simp [calculateComposition, hlot]
  · intro sec micro
    rfl

/-- C8 witness: the three facts at concrete inputs — an `action_id` without
`effective_at`, a missing lot, and a cutoff with microseconds. -/
theorem calculateComposition_errors_and_truncation_witness :
    calculateComposition (fun _ => "") [] ["01LOT"] "01LOT" none (some "01ACT")
      = Except.error "effective_at must be provided when action_id is specified."
    ∧ calculateComposition (fun _ => "") [] ["01LOT"] "01MISSING" none none
      = Except.error "Wine lot does not exist."
    ∧ calculateComposition (fun _ => "") [] ["01LOT"] "01LOT" (some ⟨5, 250000⟩) none
      = calculateComposition (fun _ => "") [] ["01LOT"] "01LOT" (some ⟨5, 0⟩) none := by
  refine ⟨?_, ?_, ?_⟩
  · exact (calculateComposition_errors_and_truncation (fun _ => "") [] ["01LOT"]
      "01LOT" none (some "01ACT")).1 rfl rfl
  · exact (calculateComposition_errors_and_truncation (fun _ => "") [] ["01LOT"]
      "01MISSING" none none).2.1 (by simp) (by decide)
  · exact (calculateComposition_errors_and_truncation (fun _ => "") [] ["01LOT"]
      "01LOT" (some ⟨5, 250000⟩) none).2.2 5 250000

/-- Unfolding of `dictGet` on a cons cell. -/
theorem dictGet_cons (p : LotComponent × ℚ) (rest : CompDict) (c : LotComponent) :
    dictGet (p :: rest) c = if p.1 = c then p.2 else dictGet rest c := by
  by_cases h : p.1 = c
  · simp [dictGet, List.find?, h]
  · simp only [dictGet, List.find?, h, decide_eq_true_eq, if_neg h]
    simp [h]

/-- Lookup after a dict write. -/
theorem dictGet_dictSet (d : CompDict) (c : LotComponent) (q : ℚ) (x : LotComponent) :
    dictGet (dictSet d c q) x = if x = c then q else dictGet d x := by
  induction d with
  | nil =>
    rw [show dictSet [] c q = [(c, q)] from rfl, dictGet_cons]
    by_cases h : x = c
    · rw [if_pos h.symm, if_pos h]
    · rw [if_neg (fun hh => h hh.symm), if_neg h]
  | cons p rest ih =>
    by_cases hp : p.1 = c
    · rw [show dictSet (p :: rest) c q = (c, q) :: rest from by simp [dictSet, hp],
        dictGet_cons]
      by_cases hx : x = c
      · rw [if_pos hx.symm, if_pos hx]
      · rw [if_neg (fun hh => hx hh.symm), if_neg hx, dictGet_cons,
          if_neg (fun hh => hx (hh.symm.trans hp))]
    · rw [show dictSet (p :: rest) c q = p :: dictSet rest c q from by simp [dictSet, hp],
        dictGet_cons, ih]
      by_cases hx : p.1 = x
      · have hxc : ¬ x = c := fun hh => hp (hx.trans hh)
        rw [if_pos hx, if_neg hxc, dictGet_cons, if_pos hx]
      · rw [if_neg hx]
        by_cases hc : x = c
        · rw [if_pos hc, if_pos hc]
        · rw [if_neg hc, if_neg hc, dictGet_cons, if_neg hx]

/-- A key outside a dict's key list reads as `0`. -/
theorem dictGet_eq_zero_of_not_mem (d : CompDict) (c : LotComponent)
    (h : c ∉ d.map Prod.fst) : dictGet d c = 0 := by
  induction d with
  | nil => rfl
  | cons p rest ih =>
    rw [dictGet_cons]
    have hp : p.1 ≠ c := by
      intro hh
      exact h (by simp only [List.map_cons, List.mem_cons]; exact Or.inl hh.symm)
    rw [if_neg hp]
    exact ih (fun hh => h (by simp only [List.map_cons, List.mem_cons]; exact Or.inr hh))

/-- Pointwise value of the scaled-addition loop: with distinct source keys,
each component gains exactly its source fraction times the weight. -/
theorem addScaled_get (w : ℚ) (src : CompDict) (d : CompDict)
    (hsrc : dictNodupKeys src) (c : LotComponent) :
    dictGet (addScaled w src d) c = dictGet d c + dictGet src c * w := by
  induction src generalizing d with
  | nil => simp [addScaled, dictGet]
  | cons p rest ih =>
    have hnd : dictNodupKeys rest := by
      have := hsrc
      simp only [dictNodupKeys, List.map_cons, List.nodup_cons] at this
      exact this.2
    have hnotmem : p.1 ∉ rest.map Prod.fst := by
      have := hsrc
      simp only [dictNodupKeys, List.map_cons, List.nodup_cons] at this
      exact this.1
    show dictGet (addScaled w rest (dictSet d p.1 (dictGet d p.1 + p.2 * w))) c = _
    rw [ih _ hnd, dictGet_dictSet, dictGet_cons]
    by_cases hc : c = p.1
    · rw [if_pos hc, if_pos hc.symm, hc, dictGet_eq_zero_of_not_mem rest p.1 hnotmem]
      ring
    · rw [if_neg hc, if_neg (fun hh => hc hh.symm)]

/-- The claim's formula for the contribution of the blended-in source lots:
for each source lot with positive `blend_volume`, that source lot's current
composition fraction scaled by `blend_volume / V_new`. -/
def sourceContribution (comps : String → Option LotComposition) (newTotal : ℚ)
    (volumes : List (String × ℚ)) (c : LotComponent) : ℚ :=
  ((volumes.filter (fun p => decide (0 < p.2))).map
    (fun p => dictGet ((comps p.1).getD ⟨[]⟩).components c * (p.2 / newTotal))).sum

/-- Pointwise value of the source loop: a successful pass adds exactly the
claim's source contribution to every component. -/
theorem addBlendSources_get (comps : String → Option LotComposition) (newTotal : ℚ)
    (volumes : List (String × ℚ)) (d d2 : CompDict)
    (h : addBlendSources comps newTotal volumes d = Except.ok d2)
    (hsrc : ∀ p ∈ volumes, 0 < p.2 →
      ∃ src, comps p.1 = some src ∧ dictNodupKeys src.components)
    (c : LotComponent) :
    dictGet d2 c = dictGet d c + sourceContribution comps newTotal volumes c := by
  induction volumes generalizing d with
  | nil =>
    simp only [addBlendSources, Except.ok.injEq] at h
    subst h
    simp [sourceContribution]
  | cons p rest ih =>
    by_cases hv : p.2 ≤ 0
    · rw [show addBlendSources comps newTotal (p :: rest) d
          = addBlendSources comps newTotal rest d from by
        cases p with
        | mk s v => simp [addBlendSources, hv]] at h
      rw [ih _ h (fun x hx hpos => hsrc x (List.mem_cons_of_mem _ hx) hpos)]
      have : ¬ (0 < p.2) := not_lt.mpr hv
      simp [sourceContribution, List.filter_cons, this]
    · have hpos : 0 < p.2 := lt_of_not_le hv
      obtain ⟨src, hsome, hnd⟩ := hsrc p (List.mem_cons_self _ _) hpos
      rw [show addBlendSources comps newTotal (p :: rest) d
          = addBlendSources comps newTotal rest
              (addScaled (p.2 / newTotal) src.components d) from by
        cases p with
        | mk s v =>
          simp only [addBlendSources, if_neg hv]
          rw [show comps s = some src from hsome]] at h
      rw [ih _ h (fun x hx hp2 => hsrc x (List.mem_cons_of_mem _ hx) hp2)]
      rw [addScaled_get _ _ _ hnd]
      have hgetd : (comps p.1).getD ⟨[]⟩ = src := by rw [hsome]; rfl
      simp [sourceContribution, List.filter_cons, hpos, hgetd]
      ring

/-- A successfully constructed composition carries exactly the given dict,
whose sum the pydantic validator has checked. -/
theorem mkComposition_ok (d : CompDict) (c : LotComposition)
    (h : mkComposition d = Except.ok c) :
    c.components = d ∧ (0.9999 : ℚ) < dictSum d ∧ dictSum d < (1.0001 : ℚ) := by
  unfold mkComposition at h
  split at h
  · rename_i hb
    simp only [Except.ok.injEq] at h
    subst h
    exact ⟨rfl, hb.1, hb.2⟩
  · simp at h

/-- C6: during the composition fold, a `VolumeBlended` event for a lot with
prior (non-negative) volume `V_old` and `V_new = V_old + Σ event.volumes > 0`
replaces that lot's composition with the existing composition scaled by
`V_old / V_new` plus, for each source lot whose `blend_volume` is positive,
that source lot's current composition scaled by `blend_volume / V_new`
(pointwise on components); and a successful step on any event kind other
than `Created` and `VolumeBlended` leaves the composition mapping
unchanged. -/
theorem buildStep_volumeBlended_spec (oracle : WineLotEvent → String)
    (acc acc2 : CompAcc) (row : EventRow)
    (aggId actionId : String) (occurredAt : DT) (volumes : List (String × ℚ)) (vrec : ℚ)
    (lot : WineLotState) (oldc : LotComposition)
    (hdata : row.data = WineLotEvent.volumeBlended aggId actionId occurredAt volumes vrec)
    (hlot : acc.lots row.aggregateId = some lot)
    (hcomp : acc.lotCompositions row.aggregateId = some oldc)
    (holdnd : dictNodupKeys oldc.components)
    (hsrc : ∀ p ∈ volumes, 0 < p.2 →
      ∃ src, acc.lotCompositions p.1 = some src ∧ dictNodupKeys src.components)
    (hVold : 0 ≤ lot.volume)
    (hVnew : 0 < lot.volume + (volumes.map Prod.snd).sum)
    (hstep : buildStep oracle acc row = Except.ok acc2) :
    (∃ newc, acc2.lotCompositions row.aggregateId = some newc
      ∧ ∀ c, dictGet newc.components c
          = dictGet oldc.components c
              * (lot.volume / (lot.volume + (volumes.map Prod.snd).sum))
            + sourceContribution acc.lotCompositions
                (lot.volume + (volumes.map Prod.snd).sum) volumes c)
    ∧ (∀ (acc3 acc4 : CompAcc) (row2 : EventRow),
        (match row2.data with
         | WineLotEvent.created _ _ _ _ => False
         | WineLotEvent.volumeBlended _ _ _ _ _ => False
         | _ => True) →
        buildStep oracle acc3 row2 = Except.ok acc4 →
        acc4.lotCompositions = acc3.lotCompositions) := by
  constructor
  · cases row with
    | mk rid raggId rocc rseq rdata =>
      simp only at hdata hlot hcomp hstep
      subst hdata
      simp only [buildStep, hlot, hcomp] at hstep
      have hguard : ¬ ((lot.volume + (volumes.map Prod.snd).sum) = 0
          ∧ (0 < lot.volume ∨ volumes.any (fun p => decide (0 < p.2)) = true)) :=
        fun hh => absurd hh.1 (ne_of_gt hVnew)
      rw [if_neg hguard] at hstep
      cases habs : addBlendSources acc.lotCompositions
          (lot.volume + (volumes.map Prod.snd).sum) volumes
          (if 0 < lot.volume then
            addScaled (lot.volume / (lot.volume + (volumes.map Prod.snd).sum))
              oldc.components []
          else []) with
      | error e =>
        simp only [habs] at hstep
        exact absurd hstep (by simp)
      | ok newComponents =>
        simp only [habs] at hstep
        cases hmk : mkComposition newComponents with
        | error e =>
          simp only [hmk] at hstep
          exact absurd hstep (by simp)
        | ok newComposition =>
          simp only [hmk] at hstep
          simp only [WineLotState.load, WineLotState.validateEventContext,
            Except.ok.injEq] at hstep
          refine ⟨newComposition, ?_, ?_⟩
          · rw [← hstep]
            simp
          · intro c
            have hcomps := (mkComposition_ok _ _ hmk).1
            rw [hcomps]
            rw [addBlendSources_get _ _ _ _ _ habs hsrc c]
            have hbase : dictGet
                (if 0 < lot.volume then
                  addScaled (lot.volume / (lot.volume + (volumes.map Prod.snd).sum))
                    oldc.components []
                else []) c
                = dictGet oldc.components c
                    * (lot.volume / (lot.volume + (volumes.map Prod.snd).sum)) := by
              by_cases hpos : 0 < lot.volume
              · rw [if_pos hpos, addScaled_get _ _ _ holdnd]
                show (0 : ℚ) + _ = _
                ring
              · rw [if_neg hpos]
                have hz : lot.volume = 0 := le_antisymm (not_lt.mp hpos) hVold
                rw [hz]
                show (0 : ℚ) = _
                simp
            rw [hbase]
  · intro acc3 acc4 row2 hkind hstep2
    cases row2 with
    | mk rid2 raggId2 rocc2 rseq2 rdata2 =>
      simp only at hkind hstep2
      cases rdata2 <;> simp only [buildStep] at hstep2 <;>
        first
        | exact hkind.elim
        | (split at hstep2
           · exact absurd hstep2 (by simp)
           · split at hstep2
             · exact absurd hstep2 (by simp)
             · simp only [Except.ok.injEq] at hstep2
               rw [← hstep2])

/-- Demo fold state for the blend-step theorem: lot R (volume 5, 100%
vintage 2022) and lot B (volume 10, 100% vintage 2023). -/
def blendDemoAcc : CompAcc :=
  { lotCompositions := fun x =>
      if x = "01R" then some ⟨[(⟨"PN", "WV", 2022⟩, 1)]⟩
      else if x = "01B" then some ⟨[(⟨"PN", "WV", 2023⟩, 1)]⟩
      else none,
    lots := fun x =>
      if x = "01R" then some { WineLotState.blank with
        id := "01R", volume := 5, adding := false }
      else if x = "01B" then some { WineLotState.blank with
        id := "01B", volume := 10, adding := false }
      else none }

/-- Demo blend event row: 5 units of B blended into R with
`volume_received = 5`. -/
def blendDemoRow : EventRow :=
  { id := 5, aggregateId := "01R", occurredAt := ⟨100, 0⟩,
    sequenceNumber := some "01ACT",
    data := WineLotEvent.volumeBlended "01R" "01ACT" ⟨100, 0⟩ [("01B", 5)] 5 }

/-- C6 witness: the blend-step theorem applied to the demo state — the 2022
fraction of R after the blend is `1 * (5 / 10) = 1/2`. -/
theorem buildStep_volumeBlended_spec_witness :
    (buildStep (fun _ => "") blendDemoAcc blendDemoRow).map
        (fun a => (a.lotCompositions "01R").map
          (fun comp => dictGet comp.components ⟨"PN", "WV", 2022⟩))
      = Except.ok (some ((1 : ℚ) / 2)) := by
  cases hstep : buildStep (fun _ => "") blendDemoAcc blendDemoRow with
  | error e =>
    exfalso
    have heval : (buildStep (fun _ => "") blendDemoAcc blendDemoRow).map
        (fun a => (a.lotCompositions "01R").map
          (fun comp => dictGet comp.components ⟨"PN", "WV", 2022⟩))
        = Except.ok (some ((1 : ℚ) / 2)) := by
      norm_num +decide [buildStep, blendDemoAcc, blendDemoRow, mkComposition,
        componentsToDict, addScaled, addBlendSources, dictSet, dictGet, dictSum,
        WineLotState.load, WineLotState.validateEventContext, WineLotState.applyEvent,
        WineLotState.blank, Except.map, List.find?]
    rw [hstep] at heval
    exact absurd heval (by simp [Except.map])
  | ok acc2 =>
    obtain ⟨⟨newc, hsome, hpt⟩, _⟩ := buildStep_volumeBlended_spec (fun _ => "")
      blendDemoAcc acc2 blendDemoRow "01R" "01ACT" ⟨100, 0⟩ [("01B", 5)] 5
      { WineLotState.blank with id := "01R", volume := 5, adding := false }
      ⟨[(⟨"PN", "WV", 2022⟩, 1)]⟩
      rfl rfl rfl (by simp [dictNodupKeys])
      (by
        intro p hp hpos
        simp only [List.mem_singleton] at hp
        subst hp
        exact ⟨⟨[(⟨"PN", "WV", 2023⟩, 1)]⟩, rfl, by simp [dictNodupKeys]⟩)
      (by norm_num)
      (by norm_num)
      hstep
    show Except.ok ((acc2.lotCompositions "01R").map
      (fun comp => dictGet comp.components ⟨"PN", "WV", 2022⟩)) = _
    rw [show acc2.lotCompositions "01R" = some newc from hsome]
    show Except.ok (some (dictGet newc.components ⟨"PN", "WV", 2022⟩)) = _
    rw [hpt ⟨"PN", "WV", 2022⟩]
    norm_num [sourceContribution, dictGet, List.find?, blendDemoAcc, WineLotState.blank]

/-- One successful fold step preserves the bound invariant: every
composition in the accumulator passed the pydantic validator, because the
only writes go through `mkComposition`. -/
theorem buildStep_bounds (oracle : WineLotEvent → String) (acc acc2 : CompAcc)
    (row : EventRow) (h : buildStep oracle acc row = Except.ok acc2)
    (hinv : ∀ id c, acc.lotCompositions id = some c →
      (0.9999 : ℚ) < dictSum c.components ∧ dictSum c.components < (1.0001 : ℚ)) :
    ∀ id c, acc2.lotCompositions id = some c →
      (0.9999 : ℚ) < dictSum c.components ∧ dictSum c.components < (1.0001 : ℚ) := by
  cases row with
  | mk rid raggId rocc rseq rdata =>
    cases rdata with
    | created a code comps t =>
      simp only [buildStep] at h
      cases hmk : mkComposition (componentsToDict comps) with
      | error e =>
        simp only [hmk] at h
        exact absurd h (by simp)
      | ok c0 =>
        simp only [hmk, WineLotState.load, WineLotState.validateEventContext,
          Except.ok.injEq] at h
        intro id c hc
        rw [← h] at hc
        simp only at hc
        by_cases hid : id = raggId
        · rw [if_pos hid] at hc
          obtain rfl : c0 = c := by simpa using hc
          obtain ⟨hcomp, hb1, hb2⟩ := mkComposition_ok _ _ hmk
          rw [hcomp]
          exact ⟨hb1, hb2⟩
        · rw [if_neg hid] at hc
          exact hinv id c hc
    | volumeBlended a actionId occurredAt volumes vrec =>
      simp only [buildStep] at h
      cases hl : acc.lots raggId with
      | none =>
        simp only [hl] at h
        exact absurd h (by simp)
      | some lot =>
        simp only [hl] at h
        cases hcl : acc.lotCompositions raggId with
        | none =>
          simp only [hcl] at h
          exact absurd h (by simp)
        | some lotComposition =>
          simp only [hcl] at h
          split at h
          · exact absurd h (by simp)
          · rename_i acc2Mid heqStep
            split at h
            · exact absurd h (by simp)
            · rename_i lot2 hload
              simp only [Except.ok.injEq] at h
              split at heqStep
              · exact absurd heqStep (by simp)
              · split at heqStep
                · exact absurd heqStep (by simp)
                · rename_i newComponents habs
                  split at heqStep
                  · exact absurd heqStep (by simp)
                  · rename_i newComposition hmk
                    simp only [Except.ok.injEq] at heqStep
                    intro id c hc
                    rw [← h] at hc
                    simp only at hc
                    rw [← heqStep] at hc
                    simp only at hc
                    by_cases hid : id = raggId
                    · rw [if_pos hid] at hc
                      obtain rfl : newComposition = c := by simpa using hc
                      obtain ⟨hcomp, hb1, hb2⟩ := mkComposition_ok _ _ hmk
                      rw [hcomp]
                      exact ⟨hb1, hb2⟩
                    · rw [if_neg hid] at hc
                      exact hinv id c hc
    | updated a cb ca =>
      simp only [buildStep] at h
      split at h
      · exact absurd h (by simp)
      · split at h
        · exact absurd h (by simp)
        · simp only [Except.ok.injEq] at h
          intro id c hc
          rw [← h] at hc
          exact hinv id c hc
    | deleted a t =>
      simp only [buildStep] at h
      split at h
      · exact absurd h (by simp)
      · split at h
        · exact absurd h (by simp)
        · simp only [Except.ok.injEq] at h
          intro id c hc
          rw [← h] at hc
          exact hinv id c hc
    | volumeReceived a actionId t v =>
      simp only [buildStep] at h
      split at h
      · exact absurd h (by simp)
      · split at h
        · exact absurd h (by simp)
        · simp only [Except.ok.injEq] at h
          intro id c hc
          rw [← h] at hc
          exact hinv id c hc
    | volumeRemeasured a actionId t v =>
      simp only [buildStep] at h
      split at h
      · exact absurd h (by simp)
      · split at h
        · exact absurd h (by simp)
        · simp only [Except.ok.injEq] at h
          intro id c hc
          rw [← h] at hc
          exact hinv id c hc
    | volumeBottled a actionId t v =>
      simp only [buildStep] at h
      split at h
      · exact absurd h (by simp)
      · split at h
        · exact absurd h (by simp)
        · simp only [Except.ok.injEq] at h
          intro id c hc
          rw [← h] at hc
          exact hinv id c hc
    | volumeMoved a actionId t v toLot =>
      simp only [buildStep] at h
      split at h
      · exact absurd h (by simp)
      · split at h
        · exact absurd h (by simp)
        · simp only [Except.ok.injEq] at h
          intro id c hc
          rw [← h] at hc
          exact hinv id c hc

/-- The fold preserves the bound invariant. -/
theorem processBuildRows_bounds (oracle : WineLotEvent → String)
    (rows : List EventRow) (acc acc2 : CompAcc)
    (h : processBuildRows oracle rows acc = Except.ok acc2)
    (hinv : ∀ id c, acc.lotCompositions id = some c →
      (0.9999 : ℚ) < dictSum c.components ∧ dictSum c.components < (1.0001 : ℚ)) :
    ∀ id c, acc2.lotCompositions id = some c →
      (0.9999 : ℚ) < dictSum c.components ∧ dictSum c.components < (1.0001 : ℚ) := by
  induction rows generalizing acc with
  | nil =>
    simp only [processBuildRows, Except.ok.injEq] at h
    subst h
    exact hinv
  | cons row rest ih =>
    simp only [processBuildRows] at h
    cases hs : buildStep oracle acc row with
    | error e =>
      rw [hs] at h
      exact absurd h (by simp)
    | ok accMid =>
      rw [hs] at h
      exact ih _ h (buildStep_bounds oracle acc accMid row hs hinv)

/-- C7: when `sum(components.values())` equals 1 on each `Created` event (and
hence, by the fold invariant, on every source lot's composition at blend
time — the pydantic validator on `Composition` makes the bound hold even
without these hypotheses), every composition produced by the blend fold sums
to within `[0.9999, 1.0001]`, and every `Composition` value the program
constructs satisfies this bound. -/
theorem buildLotCompositions_conservation (oracle : WineLotEvent → String)
    (db : List EventRow) (lotIds : List String) (effectiveAt : Option DT)
    (actionId : Option String) (acc : CompAcc)
    (hrun : buildLotCompositions oracle db lotIds effectiveAt actionId = Except.ok acc)
    (hcreated : ∀ r ∈ db, ∀ a code comps t,
      r.data = WineLotEvent.created a code comps t →
      dictSum (componentsToDict comps) = 1) :
    (∀ id c, acc.lotCompositions id = some c →
      (0.9999 : ℚ) ≤ dictSum c.components ∧ dictSum c.components ≤ (1.0001 : ℚ))
    ∧ (∀ d c, mkComposition d = Except.ok c →
      (0.9999 : ℚ) ≤ dictSum c.components ∧ dictSum c.components ≤ (1.0001 : ℚ)) := by
  constructor
  · intro id c hc
    have hbounds := processBuildRows_bounds oracle
      (db.filter (relevantEventsFilter lotIds effectiveAt actionId)) CompAcc.empty acc
      hrun (by intro i co hco; exact absurd hco (by simp [CompAcc.empty]))
      id c hc
    exact ⟨le_of_lt hbounds.1, le_of_lt hbounds.2⟩
  · intro d c hmk
    obtain ⟨hcomp, hb1, hb2⟩ := mkComposition_ok _ _ hmk
    rw [hcomp]
    exact ⟨le_of_lt hb1, le_of_lt hb2⟩

/-- C7 witness: the conservation theorem applied to a one-event store whose
`Created` components sum to exactly 1. -/
theorem buildLotCompositions_conservation_witness :
    (0.9999 : ℚ) ≤ dictSum [(⟨"PN", "WV", 2022⟩, 1)]
    ∧ dictSum [(⟨"PN", "WV", 2022⟩, (1 : ℚ))] ≤ (1.0001 : ℚ) := by
  cases hrun : buildLotCompositions (fun _ => "")
      [{ id := 1, aggregateId := "01R", occurredAt := epochDT, sequenceNumber := none,
         data := WineLotEvent.created "01R" "RLOT" [(⟨"PN", "WV", 2022⟩, 1)] epochDT }]
      ["01R"] none none with
  | error e =>
    exfalso
    have heval : (buildLotCompositions (fun _ => "")
        [{ id := 1, aggregateId := "01R", occurredAt := epochDT, sequenceNumber := none,
           data := WineLotEvent.created "01R" "RLOT" [(⟨"PN", "WV", 2022⟩, 1)] epochDT }]
        ["01R"] none none).map
        (fun a => (a.lotCompositions "01R").map (fun comp => comp.components))
        = Except.ok (some [(⟨"PN", "WV", 2022⟩, (1 : ℚ))]) := by
      norm_num +decide [buildLotCompositions, processBuildRows, buildStep,
        relevantEventsFilter, CompAcc.empty, mkComposition, componentsToDict,
        dictSet, dictSum, WineLotState.load, WineLotState.validateEventContext,
        WineLotState.applyEvent, WineLotState.blank, Except.map]
    rw [hrun] at heval
    exact absurd heval (by simp [Except.map])
  | ok acc =>
    have hthm := buildLotCompositions_conservation (fun _ => "")
      [{ id := 1, aggregateId := "01R", occurredAt := epochDT, sequenceNumber := none,
         data := WineLotEvent.created "01R" "RLOT" [(⟨"PN", "WV", 2022⟩, 1)] epochDT }]
      ["01R"] none none acc hrun
      (by
        intro r hr a code comps t hdata
        simp only [List.mem_singleton] at hr
        subst hr
        simp only at hdata
        cases hdata
        norm_num [componentsToDict, dictSet, dictSum])
    have hmk : mkComposition [(⟨"PN", "WV", 2022⟩, (1 : ℚ))]
        = Except.ok ⟨[(⟨"PN", "WV", 2022⟩, (1 : ℚ))]⟩ := by
      unfold mkComposition
      rw [if_pos (by norm_num [dictSum])]
    exact hthm.2 [(⟨"PN", "WV", 2022⟩, (1 : ℚ))] ⟨[(⟨"PN", "WV", 2022⟩, (1 : ℚ))]⟩ hmk
